import Mathlib

/-!
Verification development for the `jscodeshift-react-i18next` codemod
(`src/transform.ts`): a source-to-source tool that extracts hardcoded strings
from React components, replaces them by `t('<component>.<key>')` lookup calls,
and records the extracted text in a translation catalog.

The development gives a shallow embedding of the transform: the JSX/expression
tree is an inductive family, the catalog is an association list mirroring the
JavaScript object semantics, and the three extraction passes are pure
recursive functions computing the net effect of the jscodeshift traversals.
-/

namespace Codemod

/-! ### Character / string denylists (`src/transform.ts`, `BLACKLIST_TRANSLATION_CHARS` and `CONSTANTS`) -/

/-- `BLACKLIST_TRANSLATION_CHARS.NUMBERS` split into single-character strings. -/
def BLACKLIST_NUMBERS : List String :=
  ["0", "1", "2", "3", "4", "5", "6", "7", "8", "9"]

/-- `BLACKLIST_TRANSLATION_CHARS.CURRENCIES` split into single-character strings. -/
def BLACKLIST_CURRENCIES : List String :=
  ["$", "€", "£", "¥", "₽", "₺", "₹", "₩", "₪", "₴"]

/-- `BLACKLIST_TRANSLATION_CHARS.PUNCTUATION` split into single-character strings
(the source string is `.,!?:;'"` followed by a backtick). -/
def BLACKLIST_PUNCTUATION : List String :=
  [".", ",", "!", "?", ":", ";", "\x27", "\"", "\x60"]

/-- `BLACKLIST_TRANSLATION_CHARS.MATH` split into single-character strings. -/
def BLACKLIST_MATH : List String :=
  ["+", "=", "-", "*", "/", "%", "<", ">"]

/-- `BLACKLIST_TRANSLATION_CHARS.BRACKETS` split into single-character strings. -/
def BLACKLIST_BRACKETS : List String :=
  ["(", ")", "[", "]", "\x7b", "\x7d", "«", "»"]

/-- `BLACKLIST_TRANSLATION_CHARS.SPECIAL` split into single-character strings
(the source string is `@#$^&|\~·©` with an escaped backslash). -/
def BLACKLIST_SPECIAL : List String :=
  ["@", "#", "$", "^", "&", "|", "\\", "~", "·", "©"]

/-- `BLACKLIST_TRANSLATION_CHARS.SEPARATORS`. -/
def BLACKLIST_SEPARATORS : List String :=
  [" ", "", "-", "_"]

/-- `CONSTANTS.TRANSLATION_BLACKLIST`: the concatenation of all the character
groups above, as in `src/transform.ts` lines 98-106. -/
def TRANSLATION_BLACKLIST : List String :=
  BLACKLIST_NUMBERS ++ BLACKLIST_CURRENCIES ++ BLACKLIST_PUNCTUATION ++
  BLACKLIST_MATH ++ BLACKLIST_BRACKETS ++ BLACKLIST_SPECIAL ++ BLACKLIST_SEPARATORS

/-- `CONSTANTS.JSX_ATTRIBUTES_TO_TRANSLATE` (`src/transform.ts` lines 87-92). -/
def JSX_ATTRIBUTES_TO_TRANSLATE : List String :=
  ["alt", "aria-label", "title", "description"]

/-- `CONSTANTS.TEMPLATE_LITERAL_BLACKLIST` (`src/transform.ts` line 95). -/
def TEMPLATE_LITERAL_BLACKLIST : List String :=
  ["className", "href", "src", "key"]

/-- `CONSTANTS.TRANSLATION_KEY_MAX_LENGTH` (`src/transform.ts` line 84). -/
def TRANSLATION_KEY_MAX_LENGTH : Nat := 40

/-! ### String helpers of the transform -/

/-- Drop whitespace at both ends of a character list. -/
def trimCharList (l : List Char) : List Char :=
  ((l.dropWhile Char.isWhitespace).reverse.dropWhile Char.isWhitespace).reverse

/-- Models the JavaScript `String.prototype.trim` (the inputs of interest are
ASCII, where it and `trimCharList` agree). -/
def jsTrim (s : String) : String :=
  String.mk (trimCharList s.toList)

/-- The text classifier of the spec (section 4.4): the predicate applied to a
JSX text fragment by `transformJSXText`
(`!CONSTANTS.TRANSLATION_BLACKLIST.includes(path.node.value.trim())`,
`src/transform.ts` lines 370-375). -/
def isTranslatable (text : String) : Bool :=
  !(TRANSLATION_BLACKLIST.contains (jsTrim text))

/-- Replaces every maximal whitespace run of the list by the single character
`repl`; `prevWs` records whether the previously seen character was whitespace. -/
def replaceWsRunsAux (repl : Char) : Bool → List Char → List Char
  | _, [] => []
  | prevWs, c :: rest =>
      if c.isWhitespace then
        if prevWs then replaceWsRunsAux repl true rest
        else repl :: replaceWsRunsAux repl true rest
      else c :: replaceWsRunsAux repl false rest

/-- Models the JavaScript `s.replace(/\s+/g, repl)` for a one-character
replacement. -/
def replaceWsRuns (repl : Char) (l : List Char) : List Char :=
  replaceWsRunsAux repl false l

/-- `sanitizeText` (`src/transform.ts` lines 252-254):
`text.replace(/\s+/g, ' ').trim()`. -/
def sanitizeText (text : String) : String :=
  String.mk (trimCharList (replaceWsRuns ' ' text.toList))

/-- Lodash `_.lowerFirst`: lowercases the first character of the string. -/
def lowerFirst (s : String) : String :=
  match s.toList with
  | [] => ""
  | c :: rest => String.mk (Char.toLower c :: rest)

/-! ### The key deriver: `slugify` with the options used by the transform -/

/-- The character class of the `remove` option passed to `slugify`
(`src/transform.ts` line 236): `/[*+~.()'"!:@]/g`. -/
def slugifyRemoveChars : List Char :=
  ['*', '+', '~', '.', '(', ')', '\x27', '"', '!', ':', '@']

/-- Modelled from the spec: the transliteration table of the external
`slugify` dependency (section 4.2, "strip/transliterate diacritics"; the
library itself is not part of this repository). Restricted to the table's
ASCII entries; every other character is kept unchanged. -/
def slugifyCharMap (c : Char) : String :=
  if c = '$' then "dollar"
  else if c = '%' then "percent"
  else if c = '&' then "and"
  else if c = '<' then "less"
  else if c = '>' then "greater"
  else if c = '|' then "or"
  else String.singleton c

/-- First stage of `slugify`: map every character through the transliteration
table, turn a mapped result equal to the replacement `-` into a space, and
delete the characters matched by the `remove` option. -/
def slugifyMapped (text : String) : List Char :=
  text.toList.foldr
    (fun c acc =>
      let m := slugifyCharMap c
      let m := if m = "-" then " " else m
      m.toList.filter (fun ch => !(slugifyRemoveChars.contains ch)) ++ acc)
    []

/-- The `strict: true` stage of `slugify`: `slug.replace(/[^A-Za-z0-9\s]/g, '')`. -/
def strictFilter (l : List Char) : List Char :=
  l.filter (fun c => c.isAlphanum || c.isWhitespace)

/-- The `slugify` pipeline as a character list: transliterate and remove, keep
only alphanumerics and whitespace (`strict: true`), trim (`trim: true`),
collapse whitespace runs to `-`, lowercase (`lower: true`). -/
def slugifyList (text : String) : List Char :=
  (replaceWsRuns '-' (trimCharList (strictFilter (slugifyMapped text)))).map Char.toLower

/-- The `slugify` call of `createTranslationKey` (`src/transform.ts` lines
235-240) with its fixed options `remove: /[*+~.()'"!:@]/g, lower: true,
strict: true, trim: true`. -/
def slugify (text : String) : String :=
  String.mk (slugifyList text)

/-- `createTranslationKey` (`src/transform.ts` lines 234-241): the slug
truncated (`.slice(0, 40)`) to `TRANSLATION_KEY_MAX_LENGTH` units. -/
def createTranslationKey (text : String) : String :=
  String.mk ((slugifyList text).take TRANSLATION_KEY_MAX_LENGTH)

/-- The slug alphabet: lowercase ASCII letters, digits, and the `-` separator. -/
def isSlugChar (c : Char) : Bool :=
  ('a' ≤ c && c ≤ 'z') || ('0' ≤ c && c ≤ '9') || c == '-'

/-! ### Placeholder stripping (`value.replace(/\{\{.*?\}\}/g, '')`, line 553) -/

/-- State machine for the global non-greedy replacement of `\x7b\x7b...\x7d\x7d`
spans by the empty string: outside a span characters are copied; after an
opening double brace, characters are buffered until the earliest closing
double brace (the buffered span is then dropped), and emitted literally when
no closing double brace follows. The embedding assumes span contents without
newlines, which holds for sanitized text. -/
def stripSM : Bool → List Char → List Char → List Char
  | false, _, [] => []
  | false, _, '\x7b' :: '\x7b' :: rest => stripSM true ['\x7b', '\x7b'] rest
  | false, buf, c :: rest => c :: stripSM false buf rest
  | true, _, '\x7d' :: '\x7d' :: rest => stripSM false [] rest
  | true, buf, c :: rest => stripSM true (buf ++ [c]) rest
  | true, buf, [] => buf

/-- `value.replace(/\{\{.*?\}\}/g, '')` as used on the sanitized template text. -/
def stripPlaceholders (s : String) : String :=
  String.mk (stripSM false [] s.toList)

/-! ### Scope resolver (`getClosestFunctionAST` / `getFunctionName`) -/

/-- Kinds of tree nodes relevant to the scope resolver. `functionExpression`
is a classic (non-arrow) function expression, `function () { ... }`: it is a
function-valued expression, but the resolver's type test does not check for
it. -/
inductive NodeKind where
  | functionDeclaration
  | arrowFunctionExpression
  | functionExpression
  | variableDeclarator
  | program
  | jsxText
  | jsxAttribute
  | templateLiteral
  | otherNode
deriving DecidableEq

/-- A node as seen through an ast-types path: its kind together with the
optional `id.name` field read by `getFunctionName`. -/
structure PathNode where
  kind : NodeKind
  id : Option String
deriving DecidableEq

/-- An ast-types path, listed from the node itself along `parentPath` links up
to the tree root (last element). -/
abbrev NodePath := List PathNode

/-- The type test of `getClosestFunctionAST`:
`j.FunctionDeclaration.check(path.value) || j.ArrowFunctionExpression.check(path.value)`. -/
def isFunctionNode (n : PathNode) : Bool :=
  n.kind == .functionDeclaration || n.kind == .arrowFunctionExpression

/-- `getClosestFunctionAST` (`src/transform.ts` lines 204-222): recurse along
`parentPath` links, returning the first path whose node is a function
declaration or an arrow function expression, and `none` at the root. -/
def getClosestFunctionAST : NodePath → Option NodePath
  | [] => none
  | n :: rest => if isFunctionNode n then some (n :: rest) else getClosestFunctionAST rest

/-- `getFunctionName` (`src/transform.ts` lines 181-194): for an arrow
function, `fd.parentPath?.value?.id?.name ?? 'UnknownFunction'`; for a
function declaration, `fd.value?.id?.name ?? 'UnknownFunction'`; otherwise the
sentinel. -/
def getFunctionName : NodePath → String
  | [] => "UnknownFunction"
  | n :: rest =>
      if n.kind == .arrowFunctionExpression then
        (rest.head?.bind PathNode.id).getD "UnknownFunction"
      else if n.kind == .functionDeclaration then
        n.id.getD "UnknownFunction"
      else "UnknownFunction"

/-! ### The translation catalog

A JavaScript object is modelled as an association list that preserves the
object's key insertion order; `translations[component] = {...translations[component], [key]: value}`
updates an existing key in place and appends a fresh key at the end. -/

/-- A single component's key-to-text mapping (`TranslationEntry`). -/
abbrev TranslationEntry := List (String × String)

/-- The two-level catalog (`Translations`). -/
abbrev Translations := List (String × TranslationEntry)

/-- Spread-update of one component entry: `{...entry, [key]: value}`. -/
def upsertEntry (key value : String) : TranslationEntry → TranslationEntry
  | [] => [(key, value)]
  | (k, v) :: rest =>
      if k = key then (key, value) :: rest else (k, v) :: upsertEntry key value rest

/-- The catalog update performed per candidate:
`translations[component] = {...translations[component], [key]: value}`. -/
def upsertTranslations (component key value : String) : Translations → Translations
  | [] => [(component, [(key, value)])]
  | (c, e) :: rest =>
      if c = component then (c, upsertEntry key value e) :: rest
      else (c, e) :: upsertTranslations component key value rest

/-! ### The syntax tree -/

/-- Binding patterns of a `const` declarator: an identifier or an object
pattern (which has no `id.name`). -/
inductive Pat where
  | idPat (name : String)
  | objPat (names : List String)
deriving DecidableEq

mutual
/-- Expressions of the embedded tree. `opaqueE` stands for any expression
shape the transform never inspects or descends into. -/
inductive Expr where
  | identE (name : String)
  | strLitE (value : String)
  | memberE (objSrc : String) (propName : String)
  | opaqueE (src : String)
  | callE (callee : Expr) (args : ExprList)
  | objE (props : OPropList)
  | tmplE (quasis : List String) (exprs : ExprList)
  | taggedE (tag : Expr) (quasis : List String) (exprs : ExprList)
  | arrowE (body : FnBody)
  | jsxE (el : JSXElem)
deriving DecidableEq

inductive ExprList where
  | nil
  | cons (e : Expr) (rest : ExprList)
deriving DecidableEq

/-- An object property: key, value, and the `shorthand` flag. -/
inductive OProp where
  | mk (key : String) (value : Expr) (shorthand : Bool)
deriving DecidableEq

inductive OPropList where
  | nil
  | cons (p : OProp) (rest : OPropList)
deriving DecidableEq

/-- A JSX attribute value: a plain string literal, an expression container, or
absent (bare attribute). -/
inductive AttrVal where
  | strA (value : String)
  | exprA (e : Expr)
  | noneA
deriving DecidableEq

inductive JSXAttr where
  | mk (name : String) (value : AttrVal)
deriving DecidableEq

inductive JSXAttrList where
  | nil
  | cons (a : JSXAttr) (rest : JSXAttrList)
deriving DecidableEq

/-- A JSX child: a `JSXText` node, an expression container, or a nested
element. -/
inductive JSXChild where
  | textC (value : String)
  | exprC (e : Expr)
  | elemC (el : JSXElem)
deriving DecidableEq

inductive JSXChildList where
  | nil
  | cons (c : JSXChild) (rest : JSXChildList)
deriving DecidableEq

inductive JSXElem where
  | mk (attrs : JSXAttrList) (children : JSXChildList)
deriving DecidableEq

/-- A function body: a block statement or a single expression (arrow function
with implicit return). -/
inductive FnBody where
  | block (stmts : StmtList)
  | exprB (e : Expr)
deriving DecidableEq

/-- Statements: import declarations (specifier names and source), function
declarations (optional name), `const` declarations, returns, expression
statements, and statements the transform never inspects. -/
inductive Stmt where
  | importS (specifiers : List String) (source : String)
  | funcDeclS (name : Option String) (body : FnBody)
  | varDeclS (pat : Pat) (init : Expr)
  | returnS (e : Expr)
  | exprStmtS (e : Expr)
  | otherStmtS
deriving DecidableEq

inductive StmtList where
  | nil
  | cons (s : Stmt) (rest : StmtList)
deriving DecidableEq
end

/-- Splitting a character list at every `.`, accumulating the current chunk in
reverse. -/
def splitOnDotAux (acc : List Char) : List Char → List (List Char)
  | [] => [acc.reverse]
  | c :: rest =>
      if c = '.' then acc.reverse :: splitOnDotAux [] rest
      else splitOnDotAux (c :: acc) rest

/-- Last `.`-separated component of a source string: `source.split('.').pop()`. -/
def lastDotComponent (s : String) : String :=
  String.mk ((splitOnDotAux [] s.toList).getLastD [])

/-- The placeholder name chosen for the `i`-th (0-based) interpolated
expression (`src/transform.ts` lines 527-535): an identifier's own name; for a
member expression the last `.`-component of its printed source
(`j(expression).toSource().split('.').pop()`, the source being
`objSrc ++ "." ++ propName` in the embedding) with the positional fallback
`var{i+1}` when that is empty; and `var{i+1}` for every other expression
shape, nested template literals included. -/
def varNameOf (i : Nat) (e : Expr) : String :=
  match e with
  | .identE n => n
  | .memberE o p =>
      let last := lastDotComponent (o ++ "." ++ p)
      if last = "" then "var" ++ toString (i + 1) else last
  | _ => "var" ++ toString (i + 1)

/-- The translation text accumulated by the loop of
`transformTemplateLiterals` from position `i`: each literal chunk followed by
a double-braced placeholder, then the final chunk. The loop reads the node
before any descendant is rewritten, so the names are computed from the
original interpolation expressions. -/
def buildTemplateText (i : Nat) (quasis : List String) (exprs : ExprList) : String :=
  match exprs with
  | .nil => quasis.headD ""
  | .cons e rest =>
      quasis.headD "" ++ "\x7b\x7b" ++ varNameOf i e ++ "\x7d\x7d" ++
        buildTemplateText (i + 1) quasis.tail rest

/-- The object-literal properties accumulated by the same loop: key
`varNameOf` and the shorthand flag read from the original expression (the
expression is an identifier; the flag then compares its name with the chosen
key), while the property's value is the original expression *node* reused in
place — whose final shape is whatever later steps of the same traversal leave
it in. The second list carries those final shapes, positionally. -/
def buildTemplateProps (i : Nat) : ExprList → ExprList → OPropList
  | .nil, _ => .nil
  | .cons _ _, .nil => .nil
  | .cons e rest, .cons e' rest' =>
      .cons
        (.mk (varNameOf i e) e'
          (match e with
           | .identE n => n == varNameOf i e
           | _ => false))
        (buildTemplateProps (i + 1) rest rest')

/-- Whether an expression is a template literal (used by the attribute-level
deny-list check of the template pass). -/
def isTemplateLiteral : Expr → Bool
  | .tmplE _ _ => true
  | _ => false

/-! ### `useTranslation` call detection

`j(functionAST).find(j.CallExpression).filter(callee is Identifier 'useTranslation')`
searches the whole subtree of the function, nested functions included. -/

mutual
def containsUTExpr : Expr → Bool
  | .identE _ => false
  | .strLitE _ => false
  | .memberE _ _ => false
  | .opaqueE _ => false
  | .callE f args =>
      (match f with
       | .identE n => n == "useTranslation"
       | _ => false) || containsUTExpr f || containsUTExprList args
  | .objE ps => containsUTProps ps
  | .tmplE _ exprs => containsUTExprList exprs
  | .taggedE tag _ exprs => containsUTExpr tag || containsUTExprList exprs
  | .arrowE b => containsUTFnBody b
  | .jsxE el => containsUTElem el

def containsUTExprList : ExprList → Bool
  | .nil => false
  | .cons e rest => containsUTExpr e || containsUTExprList rest

def containsUTProps : OPropList → Bool
  | .nil => false
  | .cons (.mk _ v _) rest => containsUTExpr v || containsUTProps rest

def containsUTElem : JSXElem → Bool
  | .mk attrs children => containsUTAttrs attrs || containsUTChildren children

def containsUTAttrs : JSXAttrList → Bool
  | .nil => false
  | .cons (.mk _ v) rest =>
      (match v with
       | .exprA e => containsUTExpr e
       | _ => false) || containsUTAttrs rest

def containsUTChildren : JSXChildList → Bool
  | .nil => false
  | .cons c rest =>
      (match c with
       | .textC _ => false
       | .exprC e => containsUTExpr e
       | .elemC el => containsUTElem el) || containsUTChildren rest

def containsUTFnBody : FnBody → Bool
  | .block ss => containsUTStmts ss
  | .exprB e => containsUTExpr e

def containsUTStmts : StmtList → Bool
  | .nil => false
  | .cons s rest => containsUTStmt s || containsUTStmts rest

def containsUTStmt : Stmt → Bool
  | .importS _ _ => false
  | .funcDeclS _ b => containsUTFnBody b
  | .varDeclS _ init => containsUTExpr init
  | .returnS e => containsUTExpr e
  | .exprStmtS e => containsUTExpr e
  | .otherStmtS => false
end

/-! ### Setup injector -/

/-- The hook statement built by `ensureTranslationHook`:
`const { t } = useTranslation();`. -/
def translationHook : Stmt :=
  .varDeclS (.objPat ["t"]) (.callE (.identE "useTranslation") .nil)

/-- `ensureTranslationHook` (`src/transform.ts` lines 304-350), restricted to
its effect on the function body it receives: when the function does not
already contain a `useTranslation()` call, prepend the hook binding, wrapping
a single-expression body into a block that returns the original expression. -/
def ensureTranslationHook (body : FnBody) : FnBody :=
  if containsUTFnBody body then body
  else
    match body with
    | .block ss => .block (.cons translationHook ss)
    | .exprB e => .block (.cons translationHook (.cons (.returnS e) .nil))

/-- `root.find(j.ImportDeclaration).filter(source === importPackage).length > 0`. -/
def hasTranslationImport (importPackage : String) : StmtList → Bool
  | .nil => false
  | .cons s rest =>
      (match s with
       | .importS _ src => src == importPackage
       | _ => false) || hasTranslationImport importPackage rest

/-- `root.find(j.ImportDeclaration).at(0).insertBefore(imp)`: insert before
the first import declaration of the file; on a file without imports the
collection is empty and nothing is inserted. -/
def insertBeforeFirstImport (imp : Stmt) : StmtList → StmtList
  | .nil => .nil
  | .cons s rest =>
      match s with
      | .importS specs src => .cons imp (.cons (.importS specs src) rest)
      | s' => .cons s' (insertBeforeFirstImport imp rest)

/-- `ensureTranslationImport` (`src/transform.ts` lines 266-283). -/
def ensureTranslationImport (importPackage : String) (prog : StmtList) : StmtList :=
  if hasTranslationImport importPackage prog then prog
  else insertBeforeFirstImport (.importS ["useTranslation"] importPackage) prog

/-! ### The three extraction passes

Each pass is one jscodeshift traversal; the embedding computes its net effect
in a single recursive sweep. The `scope` parameter carries the result of
`getClosestFunctionAST`/`getFunctionName` for the current position (the name
of the innermost enclosing function, or `none` outside every function). Each
function returns the rewritten node, the updated catalog, whether a candidate
owned by the innermost enclosing function was replaced (which triggers
`ensureTranslationHook` for that function), and whether any candidate was
replaced at all (which triggers `ensureTranslationImport`). -/

/-- Which of the three extraction passes is running. -/
inductive PassKind where
  | textP
  | attrP
  | tmplP
deriving DecidableEq

/-- The replacement call `t('<component>.<key>')`. -/
def tCall (componentName key : String) : Expr :=
  .callE (.identE "t") (.cons (.strLitE (componentName ++ "." ++ key)) .nil)

/-- The replacement call of the template pass: `t('<component>.<key>')`, with
the bindings object appended only when at least one property exists
(`if (expressionProperties.length > 0) tArgs.push(...)`). -/
def tmplReplacement (componentName key : String) (props : OPropList) : Expr :=
  .callE (.identE "t")
    (match props with
     | .nil => .cons (.strLitE (componentName ++ "." ++ key)) .nil
     | ps => .cons (.strLitE (componentName ++ "." ++ key)) (.cons (.objE ps) .nil))

mutual
def passExpr (pk : PassKind) (scope : Option String) (e : Expr) (tr : Translations) :
    Expr × Translations × Bool × Bool :=
  match e with
  | .identE n => (.identE n, tr, false, false)
  | .strLitE s => (.strLitE s, tr, false, false)
  | .memberE o p => (.memberE o p, tr, false, false)
  | .opaqueE s => (.opaqueE s, tr, false, false)
  | .callE f args =>
      let r1 := passExpr pk scope f tr
      let r2 := passExprList pk scope args r1.2.1
      (.callE r1.1 r2.1, r2.2.1, r1.2.2.1 || r2.2.2.1, r1.2.2.2 || r2.2.2.2)
  | .objE ps =>
      let r := passProps pk scope ps tr
      (.objE r.1, r.2)
  | .tmplE quasis exprs =>
      match pk, scope with
      | .tmplP, some fname =>
          let componentName := lowerFirst fname
          let text := buildTemplateText 0 quasis exprs
          let value := sanitizeText text
          let key := createTranslationKey (stripPlaceholders value)
          let r := passInterpList .tmplP scope exprs
            (upsertTranslations componentName key value tr)
          (tmplReplacement componentName key (buildTemplateProps 0 exprs r.1),
           r.2.1, true, true)
      | _, _ =>
          let r := passExprList pk scope exprs tr
          (.tmplE quasis r.1, r.2)
  | .taggedE tag quasis exprs =>
      let r1 := passExpr pk scope tag tr
      let r2 := passExprList pk scope exprs r1.2.1
      (.taggedE r1.1 quasis r2.1, r2.2.1, r1.2.2.1 || r2.2.2.1, r1.2.2.2 || r2.2.2.2)
  | .arrowE b =>
      let r := passFnBody pk (some "UnknownFunction") b tr
      let b' := if r.2.2.1 then ensureTranslationHook r.1 else r.1
      (.arrowE b', r.2.1, false, r.2.2.2)
  | .jsxE el =>
      let r := passElem pk scope el tr
      (.jsxE r.1, r.2)

def passExprList (pk : PassKind) (scope : Option String) (l : ExprList) (tr : Translations) :
    ExprList × Translations × Bool × Bool :=
  match l with
  | .nil => (.nil, tr, false, false)
  | .cons e rest =>
      let r1 := passExpr pk scope e tr
      let r2 := passExprList pk scope rest r1.2.1
      (.cons r1.1 r2.1, r2.2.1, r1.2.2.1 || r2.2.2.1, r1.2.2.2 || r2.2.2.2)

/-- The immediate interpolation expressions of a template literal that was
itself replaced. Their ast-types paths point into the `expressions` array of
the now detached template node, while the nodes themselves live on as the
property values of the replacement call. The traversal was collected before
any rewriting, so each nested template literal here is still visited: its
catalog entry is written and the hook/import flags are raised, but its queued
`replaceWith` splices into the detached array — the node survives raw in the
live tree. Its own deeper rewrites target arrays owned by this surviving
node, so they do take effect: its interpolations are processed as live
expressions again. Non-template expressions at these positions are never
replaced at the top, so they are processed exactly like live expressions. -/
def passInterpList (pk : PassKind) (scope : Option String) (l : ExprList) (tr : Translations) :
    ExprList × Translations × Bool × Bool :=
  match l with
  | .nil => (.nil, tr, false, false)
  | .cons (.tmplE quasis exprs) rest =>
      match pk, scope with
      | .tmplP, some fname =>
          let componentName := lowerFirst fname
          let text := buildTemplateText 0 quasis exprs
          let value := sanitizeText text
          let key := createTranslationKey (stripPlaceholders value)
          let r1 := passExprList .tmplP scope exprs
            (upsertTranslations componentName key value tr)
          let r2 := passInterpList pk scope rest r1.2.1
          (.cons (.tmplE quasis r1.1) r2.1, r2.2.1, true, true)
      | _, _ =>
          let r1 := passExprList pk scope exprs tr
          let r2 := passInterpList pk scope rest r1.2.1
          (.cons (.tmplE quasis r1.1) r2.1, r2.2.1, r1.2.2.1 || r2.2.2.1,
           r1.2.2.2 || r2.2.2.2)
  | .cons e rest =>
      let r1 := passExpr pk scope e tr
      let r2 := passInterpList pk scope rest r1.2.1
      (.cons r1.1 r2.1, r2.2.1, r1.2.2.1 || r2.2.2.1, r1.2.2.2 || r2.2.2.2)

def passProps (pk : PassKind) (scope : Option String) (l : OPropList) (tr : Translations) :
    OPropList × Translations × Bool × Bool :=
  match l with
  | .nil => (.nil, tr, false, false)
  | .cons (.mk k v sh) rest =>
      let r1 := passExpr pk scope v tr
      let r2 := passProps pk scope rest r1.2.1
      (.cons (.mk k r1.1 sh) r2.1, r2.2.1, r1.2.2.1 || r2.2.2.1, r1.2.2.2 || r2.2.2.2)

def passAttr (pk : PassKind) (scope : Option String) (a : JSXAttr) (tr : Translations) :
    JSXAttr × Translations × Bool × Bool :=
  match a with
  | .mk name v =>
      match pk, v with
      | .attrP, .strA s =>
          if JSX_ATTRIBUTES_TO_TRANSLATE.contains name then
            match scope with
            | some fname =>
                let componentName := lowerFirst fname
                let value := sanitizeText s
                let key := createTranslationKey value
                (.mk name (.exprA (tCall componentName key)),
                 upsertTranslations componentName key value tr, true, true)
            | none => (.mk name (.strA s), tr, false, false)
          else (.mk name (.strA s), tr, false, false)
      | .tmplP, .exprA e =>
          if isTemplateLiteral e && TEMPLATE_LITERAL_BLACKLIST.contains name then
            -- The filter rejects only the template whose direct container is
            -- the deny-listed attribute (the check reads
            -- `path.parentPath.parentPath.value`); template literals nested
            -- inside its interpolations have the expressions array as parent,
            -- pass the filter, and are rewritten in place.
            match e with
            | .tmplE quasis exprs =>
                let r := passExprList .tmplP scope exprs tr
                (.mk name (.exprA (.tmplE quasis r.1)), r.2)
            | e' => (.mk name (.exprA e'), tr, false, false)
          else
            let r := passExpr .tmplP scope e tr
            (.mk name (.exprA r.1), r.2)
      | _, .exprA e =>
          let r := passExpr pk scope e tr
          (.mk name (.exprA r.1), r.2)
      | _, v' => (.mk name v', tr, false, false)

def passAttrs (pk : PassKind) (scope : Option String) (l : JSXAttrList) (tr : Translations) :
    JSXAttrList × Translations × Bool × Bool :=
  match l with
  | .nil => (.nil, tr, false, false)
  | .cons a rest =>
      let r1 := passAttr pk scope a tr
      let r2 := passAttrs pk scope rest r1.2.1
      (.cons r1.1 r2.1, r2.2.1, r1.2.2.1 || r2.2.2.1, r1.2.2.2 || r2.2.2.2)

def passChild (pk : PassKind) (scope : Option String) (c : JSXChild) (tr : Translations) :
    JSXChild × Translations × Bool × Bool :=
  match c with
  | .textC s =>
      match pk, scope with
      | .textP, some fname =>
          if TRANSLATION_BLACKLIST.contains (jsTrim s) then (.textC s, tr, false, false)
          else
            let componentName := lowerFirst fname
            let value := sanitizeText s
            let key := createTranslationKey value
            (.exprC (tCall componentName key),
             upsertTranslations componentName key value tr, true, true)
      | _, _ => (.textC s, tr, false, false)
  | .exprC e =>
      let r := passExpr pk scope e tr
      (.exprC r.1, r.2)
  | .elemC el =>
      let r := passElem pk scope el tr
      (.elemC r.1, r.2)

def passChildren (pk : PassKind) (scope : Option String) (l : JSXChildList) (tr : Translations) :
    JSXChildList × Translations × Bool × Bool :=
  match l with
  | .nil => (.nil, tr, false, false)
  | .cons c rest =>
      let r1 := passChild pk scope c tr
      let r2 := passChildren pk scope rest r1.2.1
      (.cons r1.1 r2.1, r2.2.1, r1.2.2.1 || r2.2.2.1, r1.2.2.2 || r2.2.2.2)

def passElem (pk : PassKind) (scope : Option String) (el : JSXElem) (tr : Translations) :
    JSXElem × Translations × Bool × Bool :=
  match el with
  | .mk attrs children =>
      let r1 := passAttrs pk scope attrs tr
      let r2 := passChildren pk scope children r1.2.1
      (.mk r1.1 r2.1, r2.2.1, r1.2.2.1 || r2.2.2.1, r1.2.2.2 || r2.2.2.2)

def passFnBody (pk : PassKind) (scope : Option String) (b : FnBody) (tr : Translations) :
    FnBody × Translations × Bool × Bool :=
  match b with
  | .block ss =>
      let r := passStmts pk scope ss tr
      (.block r.1, r.2)
  | .exprB e =>
      let r := passExpr pk scope e tr
      (.exprB r.1, r.2)

def passStmt (pk : PassKind) (scope : Option String) (s : Stmt) (tr : Translations) :
    Stmt × Translations × Bool × Bool :=
  match s with
  | .importS specs src => (.importS specs src, tr, false, false)
  | .funcDeclS name body =>
      let fname := name.getD "UnknownFunction"
      let r := passFnBody pk (some fname) body tr
      let b' := if r.2.2.1 then ensureTranslationHook r.1 else r.1
      (.funcDeclS name b', r.2.1, false, r.2.2.2)
  | .varDeclS pat (.arrowE b) =>
      let fname :=
        match pat with
        | .idPat n => n
        | .objPat _ => "UnknownFunction"
      let r := passFnBody pk (some fname) b tr
      let b' := if r.2.2.1 then ensureTranslationHook r.1 else r.1
      (.varDeclS pat (.arrowE b'), r.2.1, false, r.2.2.2)
  | .varDeclS pat init =>
      let r := passExpr pk scope init tr
      (.varDeclS pat r.1, r.2)
  | .returnS e =>
      let r := passExpr pk scope e tr
      (.returnS r.1, r.2)
  | .exprStmtS e =>
      let r := passExpr pk scope e tr
      (.exprStmtS r.1, r.2)
  | .otherStmtS => (.otherStmtS, tr, false, false)

def passStmts (pk : PassKind) (scope : Option String) (l : StmtList) (tr : Translations) :
    StmtList × Translations × Bool × Bool :=
  match l with
  | .nil => (.nil, tr, false, false)
  | .cons s rest =>
      let r1 := passStmt pk scope s tr
      let r2 := passStmts pk scope rest r1.2.1
      (.cons r1.1 r2.1, r2.2.1, r1.2.2.1 || r2.2.2.1, r1.2.2.2 || r2.2.2.2)
end

/-- Runs one pass over a whole file and applies `ensureTranslationImport`
exactly when the pass replaced at least one candidate. -/
def runPass (pk : PassKind) (importPackage : String) (prog : StmtList) (tr : Translations) :
    StmtList × Translations :=
  let r := passStmts pk none prog tr
  (if r.2.2.2 then ensureTranslationImport importPackage r.1 else r.1, r.2.1)

/-- `transformJSXText` (`src/transform.ts` lines 367-403). -/
def transformJSXText (importPackage : String) (prog : StmtList) (tr : Translations) :
    StmtList × Translations :=
  runPass .textP importPackage prog tr

/-- `transformJSXAttributes` (`src/transform.ts` lines 419-472). -/
def transformJSXAttributes (importPackage : String) (prog : StmtList) (tr : Translations) :
    StmtList × Translations :=
  runPass .attrP importPackage prog tr

/-- `transformTemplateLiterals` (`src/transform.ts` lines 487-577). -/
def transformTemplateLiterals (importPackage : String) (prog : StmtList) (tr : Translations) :
    StmtList × Translations :=
  runPass .tmplP importPackage prog tr

/-- The tree-and-catalog part of the main `transform` entry point
(`src/transform.ts` lines 583-629): the three passes in sequence over the
parsed file, threading the shared catalog. -/
def transform (importPackage : String) (prog : StmtList) (tr : Translations) :
    StmtList × Translations :=
  let r1 := transformJSXText importPackage prog tr
  let r2 := transformJSXAttributes importPackage r1.1 r1.2
  transformTemplateLiterals importPackage r2.1 r2.2

/-! ### Catalog load (`readTranslations`) -/

/-- A parsed JSON value (only the shapes relevant to the catalog reader are
distinguished). -/
inductive Json where
  | obj (fields : List (String × Json))
  | str (s : String)
  | other

/-- A JavaScript value that may also be `undefined` (the result of indexing an
object at an absent key). -/
inductive JsValue where
  | undefinedV
  | val (j : Json)

/-- Property access `p[key]` on a parsed JSON value. -/
def jsonLookup (key : String) : Json → Option Json
  | .obj fields => fields.lookup key
  | _ => none

/-- `readTranslations` (`src/transform.ts` lines 131-144). The first argument
models the outcome of `fs.readFileSync` + `JSON.parse`: `none` for any read or
parse failure (caught, yielding the empty catalog object), `some p` for a
successfully parsed value. A present but empty `translationRoot` is falsy in
JavaScript, so the whole parsed value is returned in that case. -/
def readTranslations (parsed : Option Json) (translationRoot : Option String) : JsValue :=
  match parsed with
  | none => .val (.obj [])
  | some p =>
      match translationRoot with
      | none => .val p
      | some r =>
          if r = "" then .val p
          else
            match jsonLookup r p with
            | some v => .val v
            | none => .undefinedV

/-! ### Candidate-freeness

`clean pk inS x` states that the subtree `x` contains no candidate for pass
`pk` at any position having an enclosing function, where `inS` says whether
the position of `x` itself is inside a function. On inputs whose template
literals have no template literal standing directly in an interpolation slot,
each pass's output is clean for it, no pass creates candidates for any pass,
and a pass is the identity on trees that are clean for it — this yields the
idempotence of the pipeline for such inputs. (A template standing directly in
a replaced template's interpolation survives raw in the live tree, so the
template pass's output is *not* candidate-free in general.) -/

mutual
def cleanExpr (pk : PassKind) (inS : Bool) : Expr → Bool
  | .identE _ => true
  | .strLitE _ => true
  | .memberE _ _ => true
  | .opaqueE _ => true
  | .callE f args => cleanExpr pk inS f && cleanExprList pk inS args
  | .objE ps => cleanProps pk inS ps
  | .tmplE _ exprs => !(pk == .tmplP && inS) && cleanExprList pk inS exprs
  | .taggedE tag _ exprs => cleanExpr pk inS tag && cleanExprList pk inS exprs
  | .arrowE b => cleanFnBody pk true b
  | .jsxE el => cleanElem pk inS el

def cleanExprList (pk : PassKind) (inS : Bool) : ExprList → Bool
  | .nil => true
  | .cons e rest => cleanExpr pk inS e && cleanExprList pk inS rest

def cleanProps (pk : PassKind) (inS : Bool) : OPropList → Bool
  | .nil => true
  | .cons (.mk _ v _) rest => cleanExpr pk inS v && cleanProps pk inS rest

def cleanAttr (pk : PassKind) (inS : Bool) : JSXAttr → Bool
  | .mk name v =>
      match pk, v with
      | .attrP, .strA _ => !(inS && JSX_ATTRIBUTES_TO_TRANSLATE.contains name)
      | .tmplP, .exprA e =>
          if isTemplateLiteral e && TEMPLATE_LITERAL_BLACKLIST.contains name then
            match e with
            | .tmplE _ exprs => cleanExprList .tmplP inS exprs
            | _ => true
          else cleanExpr .tmplP inS e
      | _, .exprA e => cleanExpr pk inS e
      | _, _ => true

def cleanAttrs (pk : PassKind) (inS : Bool) : JSXAttrList → Bool
  | .nil => true
  | .cons a rest => cleanAttr pk inS a && cleanAttrs pk inS rest

def cleanChild (pk : PassKind) (inS : Bool) : JSXChild → Bool
  | .textC s =>
      (match pk with
       | .textP => !(inS && !(TRANSLATION_BLACKLIST.contains (jsTrim s)))
       | _ => true)
  | .exprC e => cleanExpr pk inS e
  | .elemC el => cleanElem pk inS el

def cleanChildren (pk : PassKind) (inS : Bool) : JSXChildList → Bool
  | .nil => true
  | .cons c rest => cleanChild pk inS c && cleanChildren pk inS rest

def cleanElem (pk : PassKind) (inS : Bool) : JSXElem → Bool
  | .mk attrs children => cleanAttrs pk inS attrs && cleanChildren pk inS children

def cleanFnBody (pk : PassKind) (inS : Bool) : FnBody → Bool
  | .block ss => cleanStmts pk inS ss
  | .exprB e => cleanExpr pk inS e

def cleanStmt (pk : PassKind) (inS : Bool) : Stmt → Bool
  | .importS _ _ => true
  | .funcDeclS _ b => cleanFnBody pk true b
  | .varDeclS _ (.arrowE b) => cleanFnBody pk true b
  | .varDeclS _ init => cleanExpr pk inS init
  | .returnS e => cleanExpr pk inS e
  | .exprStmtS e => cleanExpr pk inS e
  | .otherStmtS => true

def cleanStmts (pk : PassKind) (inS : Bool) : StmtList → Bool
  | .nil => true
  | .cons s rest => cleanStmt pk inS s && cleanStmts pk inS rest
end

/-! ### Nesting-freeness

`noNested x` states that no template literal of `x` stands directly in an
interpolation slot of another template literal (tagged templates included).
Exactly such directly nested templates are the ones whose queued replacement
is lost to a detached `expressions` array, so on nesting-free inputs every
queued replacement lands in the live tree. -/

mutual
def noNestedExpr : Expr → Bool
  | .identE _ => true
  | .strLitE _ => true
  | .memberE _ _ => true
  | .opaqueE _ => true
  | .callE f args => noNestedExpr f && noNestedExprList args
  | .objE ps => noNestedProps ps
  | .tmplE _ exprs => noNestedInterps exprs
  | .taggedE tag _ exprs => noNestedExpr tag && noNestedInterps exprs
  | .arrowE b => noNestedFnBody b
  | .jsxE el => noNestedElem el

def noNestedExprList : ExprList → Bool
  | .nil => true
  | .cons e rest => noNestedExpr e && noNestedExprList rest

/-- Interpolation slots of a template literal: no slot may hold a template
literal at its top, and every slot is nesting-free below. -/
def noNestedInterps : ExprList → Bool
  | .nil => true
  | .cons e rest => !isTemplateLiteral e && noNestedExpr e && noNestedInterps rest

def noNestedProps : OPropList → Bool
  | .nil => true
  | .cons (.mk _ v _) rest => noNestedExpr v && noNestedProps rest

def noNestedAttr : JSXAttr → Bool
  | .mk _ v =>
      match v with
      | .exprA e => noNestedExpr e
      | _ => true

def noNestedAttrs : JSXAttrList → Bool
  | .nil => true
  | .cons a rest => noNestedAttr a && noNestedAttrs rest

def noNestedChild : JSXChild → Bool
  | .textC _ => true
  | .exprC e => noNestedExpr e
  | .elemC el => noNestedElem el

def noNestedChildren : JSXChildList → Bool
  | .nil => true
  | .cons c rest => noNestedChild c && noNestedChildren rest

def noNestedElem : JSXElem → Bool
  | .mk attrs children => noNestedAttrs attrs && noNestedChildren children

def noNestedFnBody : FnBody → Bool
  | .block ss => noNestedStmts ss
  | .exprB e => noNestedExpr e

def noNestedStmt : Stmt → Bool
  | .importS _ _ => true
  | .funcDeclS _ b => noNestedFnBody b
  | .varDeclS _ init => noNestedExpr init
  | .returnS e => noNestedExpr e
  | .exprStmtS e => noNestedExpr e
  | .otherStmtS => true

def noNestedStmts : StmtList → Bool
  | .nil => true
  | .cons s rest => noNestedStmt s && noNestedStmts rest
end

/-! ### Observation helpers for the setup injector -/

/-- Whether the file contains any import declaration at all. -/
def containsImport : StmtList → Bool
  | .nil => false
  | .cons s rest =>
      (match s with
       | .importS _ _ => true
       | _ => false) || containsImport rest

/-- Number of import declarations whose source is `importPackage`. -/
def countTranslationImports (importPackage : String) : StmtList → Nat
  | .nil => 0
  | .cons s rest =>
      (match s with
       | .importS _ src => if src = importPackage then 1 else 0
       | _ => 0) + countTranslationImports importPackage rest

/-- The first import declaration of the file, in program order. -/
def firstImport : StmtList → Option Stmt
  | .nil => none
  | .cons s rest =>
      match s with
      | .importS specs src => some (.importS specs src)
      | _ => firstImport rest

/-! ### Claim C1: the text classifier -/

/-- C1 counterexample: the claim states `isTranslatable("42")` is false, but the
denylist contains each digit only as a single-character entry, so the
two-character fragment `"42"` is not on it and the classifier accepts it. -/
theorem claim1_counterexample : isTranslatable "42" = true := by decide

/-- C1 (amended): the classifier rejects exactly the fragments whose whole
trimmed form is on the denylist; `isTranslatable("")`, `isTranslatable("$")`
and `isTranslatable("   ")` are false, while `isTranslatable("42")` (two
digits, not a single-character denylist entry), `isTranslatable("Hello World")`
and `isTranslatable("Price: $5")` are true. -/
theorem claim1_classifier :
    isTranslatable "" = false ∧
    isTranslatable "42" = true ∧
    isTranslatable "$" = false ∧
    isTranslatable "   " = false ∧
    isTranslatable "Hello World" = true ∧
    isTranslatable "Price: $5" = true := by
  refine ⟨by decide, by decide, by decide, by decide, by decide, by decide⟩

/-! ### Claim C4: template decomposition -/

/-- C4: on the template literal `Hello ${user.name}, role ${user.role}` the
template pass derives the text `Hello {{name}}, role {{role}}` (each
placeholder named after the expression's last accessed member), builds the
binding object `{name: user.name, role: user.role}` in encounter order, and
derives the key from the text with placeholder spans removed
(`"Hello , role "`, which normalizes to `hello-role`), so interpolated
variable content never reaches the key. -/
theorem claim4_template_decomposition :
    passExpr .tmplP (some "Component")
        (.tmplE ["Hello ", ", role ", ""]
          (.cons (.memberE "user" "name") (.cons (.memberE "user" "role") .nil))) [] =
      (.callE (.identE "t")
        (.cons (.strLitE "component.hello-role")
          (.cons
            (.objE
              (.cons (.mk "name" (.memberE "user" "name") false)
                (.cons (.mk "role" (.memberE "user" "role") false) .nil)))
            .nil)),
       [("component", [("hello-role", "Hello \x7b\x7bname\x7d\x7d, role \x7b\x7brole\x7d\x7d")])],
       true, true) ∧
    buildTemplateText 0 ["Hello ", ", role ", ""]
        (.cons (.memberE "user" "name") (.cons (.memberE "user" "role") .nil)) =
      "Hello \x7b\x7bname\x7d\x7d, role \x7b\x7brole\x7d\x7d" ∧
    stripPlaceholders "Hello \x7b\x7bname\x7d\x7d, role \x7b\x7brole\x7d\x7d" = "Hello , role " ∧
    createTranslationKey "Hello , role " = "hello-role" := by
  refine ⟨by decide, by decide, by decide, by decide⟩

/-! ### Claim C6: catalog load -/

/-- C6: catalog load is a total function (the embedding of the `try`/`catch`
body never fails): every read or parse failure yields the empty catalog for
any root-key configuration, and a given (truthy) root key returns exactly the
sub-mapping stored under that key. -/
theorem claim6_catalog_load :
    (∀ root, readTranslations none root = .val (.obj [])) ∧
    (∀ p r v, r ≠ "" → jsonLookup r p = some v →
      readTranslations (some p) (some r) = .val v) := by
  constructor
  · intro root
    rfl
  · intro p r v hr hv
    simp [readTranslations, hr, hv]

/-- C6 witness: a concrete catalog file with root key `en`. -/
theorem claim6_catalog_load_witness :
    readTranslations (some (.obj [("en", .obj [("component", .str "Hello")])])) (some "en") =
      .val (.obj [("component", .str "Hello")]) :=
  claim6_catalog_load.2 (.obj [("en", .obj [("component", .str "Hello")])]) "en"
    (.obj [("component", .str "Hello")]) (by decide) rfl

/-! ### Claim C2: the scope resolver -/

theorem getClosestFunctionAST_none_iff (p : NodePath) :
    getClosestFunctionAST p = none ↔ ∀ n ∈ p, isFunctionNode n = false := by
  induction p with
  | nil => simp [getClosestFunctionAST]
  | cons n rest ih =>
      by_cases h : isFunctionNode n = true
      · simp [getClosestFunctionAST, h]
      · simp only [Bool.not_eq_true] at h
        simp [getClosestFunctionAST, h, ih]

theorem getClosestFunctionAST_some (p q : NodePath)
    (h : getClosestFunctionAST p = some q) :
    (∃ hd tl, q = hd :: tl ∧ isFunctionNode hd = true) ∧
    ∃ pre, p = pre ++ q ∧ ∀ m ∈ pre, isFunctionNode m = false := by
  induction p with
  | nil => simp [getClosestFunctionAST] at h
  | cons n rest ih =>
      by_cases hn : isFunctionNode n = true
      · simp [getClosestFunctionAST, hn] at h
        subst h
        exact ⟨⟨n, rest, rfl, hn⟩, [], rfl, by simp⟩
      · simp only [Bool.not_eq_true] at hn
        simp [getClosestFunctionAST, hn] at h
        obtain ⟨hhd, pre, hpre, hall⟩ := ih h
        exact ⟨hhd, n :: pre, by simp [hpre], by simpa [hn] using hall⟩

/-- C2 counterexample: the claim says the resolver stops at the nearest
enclosing function declaration *or function-valued expression* and returns
null only when the root is reached with no enclosing function construct. But
the type test of `getClosestFunctionAST` checks only
`j.FunctionDeclaration.check` and `j.ArrowFunctionExpression.check`, so a
classic function expression (`const F = function () { ... }`) is walked past
like any other node: on a text node whose only enclosing function construct
is such a `FunctionExpression`, the resolver returns `null` even though a
function-valued expression encloses the node. -/
theorem claim2_counterexample :
    isFunctionNode ⟨.functionExpression, none⟩ = false ∧
    getClosestFunctionAST
        [⟨.jsxText, none⟩, ⟨.functionExpression, none⟩,
          ⟨.variableDeclarator, some "F"⟩, ⟨.program, none⟩] = none := by
  refine ⟨by decide, by decide⟩

/-- C2 (amended): the scope resolver stops at the first function declaration
or *arrow* function expression along the ancestor chain (every node skipped on
the way is neither — in particular classic non-arrow function expressions are
walked past), returns `none` exactly when the root is reached without meeting
a function declaration or arrow function, and resolves the unit name as: the
enclosing declarator's identifier for an arrow function (sentinel
`UnknownFunction` when the parent has no identifier), the function's own
declared name for a declaration (sentinel when anonymous). -/
theorem claim2_scope_resolver (p : NodePath) :
    (getClosestFunctionAST p = none ↔ ∀ n ∈ p, isFunctionNode n = false) ∧
    (∀ q, getClosestFunctionAST p = some q →
      (∃ hd tl, q = hd :: tl ∧ isFunctionNode hd = true) ∧
      ∃ pre, p = pre ++ q ∧ ∀ m ∈ pre, isFunctionNode m = false) ∧
    (∀ aid d tl, getFunctionName (⟨.arrowFunctionExpression, aid⟩ :: d :: tl) =
      d.id.getD "UnknownFunction") ∧
    (∀ aid, getFunctionName [(⟨.arrowFunctionExpression, aid⟩ : PathNode)] = "UnknownFunction") ∧
    (∀ fid tl, getFunctionName (⟨.functionDeclaration, fid⟩ :: tl) =
      fid.getD "UnknownFunction") := by
  refine ⟨getClosestFunctionAST_none_iff p, getClosestFunctionAST_some p, ?_, ?_, ?_⟩
  · intro aid d tl
    simp [getFunctionName]
  · intro aid
    simp [getFunctionName]
  · intro fid tl
    simp [getFunctionName]

/-- C2 witness: a text node inside `const Welcome = () => ...`; the resolver
finds the arrow function and names it after the declarator. -/
theorem claim2_scope_resolver_witness :
    getFunctionName
        [⟨.arrowFunctionExpression, none⟩, ⟨.variableDeclarator, some "Welcome"⟩,
          ⟨.program, none⟩] = "Welcome" ∧
    ∃ pre,
      ([⟨.jsxText, none⟩, ⟨.arrowFunctionExpression, none⟩,
         ⟨.variableDeclarator, some "Welcome"⟩, ⟨.program, none⟩] : NodePath) =
        pre ++ [⟨.arrowFunctionExpression, none⟩, ⟨.variableDeclarator, some "Welcome"⟩,
          ⟨.program, none⟩] ∧
      ∀ m ∈ pre, isFunctionNode m = false := by
  constructor
  · exact ((claim2_scope_resolver []).2.2.1 none ⟨.variableDeclarator, some "Welcome"⟩
      [⟨.program, none⟩]).trans rfl
  · exact ((claim2_scope_resolver
      [⟨.jsxText, none⟩, ⟨.arrowFunctionExpression, none⟩,
        ⟨.variableDeclarator, some "Welcome"⟩, ⟨.program, none⟩]).2.1
      [⟨.arrowFunctionExpression, none⟩, ⟨.variableDeclarator, some "Welcome"⟩,
        ⟨.program, none⟩] (by decide)).2

/-! ### Claim C3: the key deriver -/

theorem uint32_le_iff_toNat (a b : UInt32) : a ≤ b ↔ a.toNat ≤ b.toNat := by
  rw [UInt32.le_def, BitVec.le_def]
  rfl

theorem char_le_iff_toNat (a b : Char) : a ≤ b ↔ a.toNat ≤ b.toNat := by
  rw [Char.le_def, uint32_le_iff_toNat]
  rfl

theorem char_toNat_ofNat (n : Nat) (h : n.isValidChar) : (Char.ofNat n).toNat = n := by
  simp [Char.ofNat, h, Char.toNat, Char.ofNatAux, UInt32.toNat]

theorem toLower_alnum (c : Char) (h : c.isAlphanum = true) :
    isSlugChar c.toLower = true := by
  simp only [Char.isAlphanum, Char.isAlpha, Char.isUpper, Char.isLower, Char.isDigit,
    Bool.or_eq_true, Bool.and_eq_true, decide_eq_true_eq, ge_iff_le] at h
  have conv : ∀ m : UInt32, m ≤ c.val ↔ m.toNat ≤ c.toNat := fun m => uint32_le_iff_toNat m c.val
  have conv2 : ∀ m : UInt32, c.val ≤ m ↔ c.toNat ≤ m.toNat := fun m => uint32_le_iff_toNat c.val m
  simp only [isSlugChar, Bool.or_eq_true, Bool.and_eq_true, decide_eq_true_eq]
  rcases h with (⟨h1, h2⟩ | ⟨h1, h2⟩) | ⟨h1, h2⟩
  all_goals rw [conv] at h1; rw [conv2] at h2
  · have h65 : 65 ≤ c.toNat := h1
    have h90 : c.toNat ≤ 90 := h2
    have hvalid : (c.toNat + 32).isValidChar := Or.inl (by omega)
    have htl : c.toLower = Char.ofNat (c.toNat + 32) := by
      unfold Char.toLower
      rw [if_pos ⟨h65, h90⟩]
    have htn : (c.toLower).toNat = c.toNat + 32 := by
      rw [htl, char_toNat_ofNat _ hvalid]
    refine Or.inl (Or.inl ⟨?_, ?_⟩)
    · rw [char_le_iff_toNat, htn]
      have ha : Char.toNat 'a' = 97 := rfl
      omega
    · rw [char_le_iff_toNat, htn]
      have hz : Char.toNat 'z' = 122 := rfl
      omega
  · have h97 : 97 ≤ c.toNat := h1
    have h122 : c.toNat ≤ 122 := h2
    have htl : c.toLower = c := by
      unfold Char.toLower
      rw [if_neg (by omega)]
    refine Or.inl (Or.inl ⟨?_, ?_⟩)
    · rw [htl, char_le_iff_toNat]
      have ha : Char.toNat 'a' = 97 := rfl
      omega
    · rw [htl, char_le_iff_toNat]
      have hz : Char.toNat 'z' = 122 := rfl
      omega
  · have h48 : 48 ≤ c.toNat := h1
    have h57 : c.toNat ≤ 57 := h2
    have htl : c.toLower = c := by
      unfold Char.toLower
      rw [if_neg (by omega)]
    refine Or.inl (Or.inr ⟨?_, ?_⟩)
    · rw [htl, char_le_iff_toNat]
      have h0 : Char.toNat '0' = 48 := rfl
      omega
    · rw [htl, char_le_iff_toNat]
      have h9 : Char.toNat '9' = 57 := rfl
      omega

theorem mem_strictFilter {c : Char} {l : List Char} (h : c ∈ strictFilter l) :
    c.isAlphanum = true ∨ c.isWhitespace = true := by
  simp only [strictFilter, List.mem_filter, Bool.or_eq_true] at h
  exact h.2

theorem mem_trimCharList {c : Char} {l : List Char} (h : c ∈ trimCharList l) : c ∈ l := by
  simp only [trimCharList, List.mem_reverse] at h
  have h1 : c ∈ (List.dropWhile Char.isWhitespace l).reverse :=
    (List.dropWhile_sublist _).mem h
  rw [List.mem_reverse] at h1
  exact (List.dropWhile_sublist _).mem h1

theorem mem_replaceWsRunsAux {repl c : Char} {l : List Char} :
    ∀ {b : Bool}, c ∈ replaceWsRunsAux repl b l →
      c = repl ∨ (c ∈ l ∧ c.isWhitespace = false) := by
  induction l with
  | nil => intro b h; simp [replaceWsRunsAux] at h
  | cons d rest ih =>
      intro b h
      by_cases hw : d.isWhitespace = true
      · simp only [replaceWsRunsAux, hw, if_true] at h
        match b, h with
        | true, h =>
            rcases ih h with h' | h'
            · exact Or.inl h'
            · exact Or.inr ⟨List.mem_cons_of_mem _ h'.1, h'.2⟩
        | false, h =>
            rcases List.mem_cons.mp h with h' | h'
            · exact Or.inl h'
            · rcases ih h' with h'' | h''
              · exact Or.inl h''
              · exact Or.inr ⟨List.mem_cons_of_mem _ h''.1, h''.2⟩
      · simp only [Bool.not_eq_true] at hw
        simp only [replaceWsRunsAux, hw, Bool.false_eq_true, if_false] at h
        rcases List.mem_cons.mp h with h' | h'
        · subst h'
          exact Or.inr ⟨List.mem_cons_self _ _, hw⟩
        · rcases ih h' with h'' | h''
          · exact Or.inl h''
          · exact Or.inr ⟨List.mem_cons_of_mem _ h''.1, h''.2⟩

theorem mem_slugifyList {c : Char} {t : String} (h : c ∈ slugifyList t) :
    isSlugChar c = true := by
  simp only [slugifyList, List.mem_map] at h
  obtain ⟨d, hd, rfl⟩ := h
  rcases mem_replaceWsRunsAux hd with h' | ⟨hmem, hnw⟩
  · subst h'
    decide
  · rcases mem_strictFilter (mem_trimCharList hmem) with halnum | hws
    · exact toLower_alnum d halnum
    · rw [hws] at hnw
      cases hnw

/-- C3 counterexample: truncation to 40 units is a plain `.slice(0, 40)` with
no trailing-separator trim; on an input slugifying to 39 `a`-characters, a
separator, and a `b`, the key is cut right after the separator and ends in
`-`. -/
theorem claim3_counterexample :
    createTranslationKey "aaaaaaaaaaaaaaaaaaaaaaaaaaaaaaaaaaaaaaa b" =
      "aaaaaaaaaaaaaaaaaaaaaaaaaaaaaaaaaaaaaaa-" ∧
    (createTranslationKey "aaaaaaaaaaaaaaaaaaaaaaaaaaaaaaaaaaaaaaa b").toList.getLast? =
      some '-' ∧
    (createTranslationKey "aaaaaaaaaaaaaaaaaaaaaaaaaaaaaaaaaaaaaaa b").length =
      TRANSLATION_KEY_MAX_LENGTH := by
  refine ⟨by decide, by decide, by decide⟩

/-- C3 (amended): the key deriver is pure and deterministic, its output length
is at most 40, and every output character belongs to the lowercase slug
alphabet (ASCII lowercase letters, digits, `-`); it may however end in a
separator when truncation cuts the slug right after one — the trailing
separator is not trimmed. -/
theorem claim3_key_deriver :
    (∀ t1 t2 : String, t1 = t2 → createTranslationKey t1 = createTranslationKey t2) ∧
    (∀ t : String, (createTranslationKey t).length ≤ TRANSLATION_KEY_MAX_LENGTH) ∧
    (∀ t : String, ∀ c ∈ (createTranslationKey t).toList, isSlugChar c = true) := by
  refine ⟨?_, ?_, ?_⟩
  · intro t1 t2 h
    rw [h]
  · intro t
    show (String.mk ((slugifyList t).take TRANSLATION_KEY_MAX_LENGTH)).length ≤ _
    simp [String.length]
  · intro t c hc
    have hc' : c ∈ (slugifyList t).take TRANSLATION_KEY_MAX_LENGTH := by
      simpa [createTranslationKey] using hc
    exact mem_slugifyList (List.mem_of_mem_take hc')

/-- C3 witness: determinism, the length bound, and the alphabet bound at the
concrete input `Hello World!`, whose key is `hello-world`. -/
theorem claim3_key_deriver_witness :
    createTranslationKey "Hello World!" = createTranslationKey "Hello World!" ∧
    (createTranslationKey "Hello World!").length ≤ TRANSLATION_KEY_MAX_LENGTH ∧
    (∀ c ∈ (createTranslationKey "Hello World!").toList, isSlugChar c = true) ∧
    createTranslationKey "Hello World!" = "hello-world" :=
  ⟨claim3_key_deriver.1 "Hello World!" "Hello World!" rfl,
   claim3_key_deriver.2.1 "Hello World!",
   claim3_key_deriver.2.2 "Hello World!",
   by decide⟩

/-! ### Claim C5: the import injector -/

theorem countTranslationImports_of_not_has (importPackage : String) :
    (ss : StmtList) → hasTranslationImport importPackage ss = false →
      countTranslationImports importPackage ss = 0
  | .nil, _ => rfl
  | .cons (.importS specs src) rest, h => by
      simp only [hasTranslationImport, Bool.or_eq_false_iff, beq_eq_false_iff_ne] at h
      simp [countTranslationImports, h.1,
        countTranslationImports_of_not_has importPackage rest h.2]
  | .cons (.funcDeclS n b) rest, h => by
      simp only [hasTranslationImport, Bool.false_or] at h
      simp [countTranslationImports, countTranslationImports_of_not_has importPackage rest h]
  | .cons (.varDeclS p i) rest, h => by
      simp only [hasTranslationImport, Bool.false_or] at h
      simp [countTranslationImports, countTranslationImports_of_not_has importPackage rest h]
  | .cons (.returnS e) rest, h => by
      simp only [hasTranslationImport, Bool.false_or] at h
      simp [countTranslationImports, countTranslationImports_of_not_has importPackage rest h]
  | .cons (.exprStmtS e) rest, h => by
      simp only [hasTranslationImport, Bool.false_or] at h
      simp [countTranslationImports, countTranslationImports_of_not_has importPackage rest h]
  | .cons .otherStmtS rest, h => by
      simp only [hasTranslationImport, Bool.false_or] at h
      simp [countTranslationImports, countTranslationImports_of_not_has importPackage rest h]

theorem countTranslationImports_insert (importPackage : String) (specs : List String) :
    (ss : StmtList) → containsImport ss = true →
      countTranslationImports importPackage
          (insertBeforeFirstImport (.importS specs importPackage) ss) =
        countTranslationImports importPackage ss + 1
  | .nil, h => by simp [containsImport] at h
  | .cons (.importS sp src) rest, _ => by
      simp [insertBeforeFirstImport, countTranslationImports]
      omega
  | .cons (.funcDeclS n b) rest, h => by
      simp only [containsImport, Bool.false_or] at h
      simp [insertBeforeFirstImport, countTranslationImports,
        countTranslationImports_insert importPackage specs rest h]
  | .cons (.varDeclS p i) rest, h => by
      simp only [containsImport, Bool.false_or] at h
      simp [insertBeforeFirstImport, countTranslationImports,
        countTranslationImports_insert importPackage specs rest h]
  | .cons (.returnS e) rest, h => by
      simp only [containsImport, Bool.false_or] at h
      simp [insertBeforeFirstImport, countTranslationImports,
        countTranslationImports_insert importPackage specs rest h]
  | .cons (.exprStmtS e) rest, h => by
      simp only [containsImport, Bool.false_or] at h
      simp [insertBeforeFirstImport, countTranslationImports,
        countTranslationImports_insert importPackage specs rest h]
  | .cons .otherStmtS rest, h => by
      simp only [containsImport, Bool.false_or] at h
      simp [insertBeforeFirstImport, countTranslationImports,
        countTranslationImports_insert importPackage specs rest h]

theorem firstImport_insert (importPackage : String) (specs : List String) :
    (ss : StmtList) → containsImport ss = true →
      firstImport (insertBeforeFirstImport (.importS specs importPackage) ss) =
        some (.importS specs importPackage)
  | .nil, h => by simp [containsImport] at h
  | .cons (.importS sp src) rest, _ => by simp [insertBeforeFirstImport, firstImport]
  | .cons (.funcDeclS n b) rest, h => by
      simp only [containsImport, Bool.false_or] at h
      simp [insertBeforeFirstImport, firstImport, firstImport_insert importPackage specs rest h]
  | .cons (.varDeclS p i) rest, h => by
      simp only [containsImport, Bool.false_or] at h
      simp [insertBeforeFirstImport, firstImport, firstImport_insert importPackage specs rest h]
  | .cons (.returnS e) rest, h => by
      simp only [containsImport, Bool.false_or] at h
      simp [insertBeforeFirstImport, firstImport, firstImport_insert importPackage specs rest h]
  | .cons (.exprStmtS e) rest, h => by
      simp only [containsImport, Bool.false_or] at h
      simp [insertBeforeFirstImport, firstImport, firstImport_insert importPackage specs rest h]
  | .cons .otherStmtS rest, h => by
      simp only [containsImport, Bool.false_or] at h
      simp [insertBeforeFirstImport, firstImport, firstImport_insert importPackage specs rest h]

theorem insertBeforeFirstImport_noop (imp : Stmt) :
    (ss : StmtList) → containsImport ss = false → insertBeforeFirstImport imp ss = ss
  | .nil, _ => rfl
  | .cons (.importS sp src) rest, h => by simp [containsImport] at h
  | .cons (.funcDeclS n b) rest, h => by
      simp only [containsImport, Bool.false_or] at h
      simp [insertBeforeFirstImport, insertBeforeFirstImport_noop imp rest h]
  | .cons (.varDeclS p i) rest, h => by
      simp only [containsImport, Bool.false_or] at h
      simp [insertBeforeFirstImport, insertBeforeFirstImport_noop imp rest h]
  | .cons (.returnS e) rest, h => by
      simp only [containsImport, Bool.false_or] at h
      simp [insertBeforeFirstImport, insertBeforeFirstImport_noop imp rest h]
  | .cons (.exprStmtS e) rest, h => by
      simp only [containsImport, Bool.false_or] at h
      simp [insertBeforeFirstImport, insertBeforeFirstImport_noop imp rest h]
  | .cons .otherStmtS rest, h => by
      simp only [containsImport, Bool.false_or] at h
      simp [insertBeforeFirstImport, insertBeforeFirstImport_noop imp rest h]

theorem hasTranslationImport_insert (importPackage : String) (specs : List String) :
    (ss : StmtList) →
      hasTranslationImport importPackage
          (insertBeforeFirstImport (.importS specs importPackage) ss) =
        (containsImport ss || hasTranslationImport importPackage ss)
  | .nil => by simp [insertBeforeFirstImport, hasTranslationImport, containsImport]
  | .cons (.importS sp src) rest => by
      simp [insertBeforeFirstImport, hasTranslationImport, containsImport]
  | .cons (.funcDeclS n b) rest => by
      simp [insertBeforeFirstImport, hasTranslationImport, containsImport,
        hasTranslationImport_insert importPackage specs rest]
  | .cons (.varDeclS p i) rest => by
      simp [insertBeforeFirstImport, hasTranslationImport, containsImport,
        hasTranslationImport_insert importPackage specs rest]
  | .cons (.returnS e) rest => by
      simp [insertBeforeFirstImport, hasTranslationImport, containsImport,
        hasTranslationImport_insert importPackage specs rest]
  | .cons (.exprStmtS e) rest => by
      simp [insertBeforeFirstImport, hasTranslationImport, containsImport,
        hasTranslationImport_insert importPackage specs rest]
  | .cons .otherStmtS rest => by
      simp [insertBeforeFirstImport, hasTranslationImport, containsImport,
        hasTranslationImport_insert importPackage specs rest]

/-- C5 counterexample: on a file with no import statements at all (and hence
none from the package), `ensureTranslationImport` inserts nothing — the
`at(0).insertBefore` call acts on an empty collection — contradicting the
claim that exactly one import is always inserted. -/
theorem claim5_counterexample :
    hasTranslationImport "react-i18next" (.cons (.exprStmtS (.identE "x")) .nil) = false ∧
    ensureTranslationImport "react-i18next" (.cons (.exprStmtS (.identE "x")) .nil) =
      .cons (.exprStmtS (.identE "x")) .nil ∧
    countTranslationImports "react-i18next"
      (ensureTranslationImport "react-i18next" (.cons (.exprStmtS (.identE "x")) .nil)) = 0 := by
  refine ⟨by decide, by decide, by decide⟩

/-- C5 (amended): when no import from the package exists but the file has at
least one import statement, `ensureTranslationImport` inserts exactly one hook
symbol import, positioned before every other import; when one from the package
already exists it changes nothing; on a file with no import statements it
inserts nothing; it is idempotent in all cases. -/
theorem claim5_ensure_import (importPackage : String) (prog : StmtList) :
    (hasTranslationImport importPackage prog = true →
      ensureTranslationImport importPackage prog = prog) ∧
    (hasTranslationImport importPackage prog = false → containsImport prog = true →
      countTranslationImports importPackage (ensureTranslationImport importPackage prog) = 1 ∧
      firstImport (ensureTranslationImport importPackage prog) =
        some (.importS ["useTranslation"] importPackage)) ∧
    (containsImport prog = false →
      ensureTranslationImport importPackage prog = prog) ∧
    (ensureTranslationImport importPackage (ensureTranslationImport importPackage prog) =
      ensureTranslationImport importPackage prog) := by
  refine ⟨?_, ?_, ?_, ?_⟩
  · intro h
    simp [ensureTranslationImport, h]
  · intro h hc
    have h1 : ensureTranslationImport importPackage prog =
        insertBeforeFirstImport (.importS ["useTranslation"] importPackage) prog := by
      simp [ensureTranslationImport, h]
    rw [h1]
    exact ⟨by
        rw [countTranslationImports_insert importPackage _ _ hc,
          countTranslationImports_of_not_has importPackage prog h],
      firstImport_insert importPackage _ _ hc⟩
  · intro hc
    by_cases h : hasTranslationImport importPackage prog = true
    · simp [ensureTranslationImport, h]
    · simp only [Bool.not_eq_true] at h
      simp [ensureTranslationImport, h, insertBeforeFirstImport_noop _ _ hc]
  · by_cases h : hasTranslationImport importPackage prog = true
    · simp [ensureTranslationImport, h]
    · simp only [Bool.not_eq_true] at h
      by_cases hc : containsImport prog = true
      · have h1 : ensureTranslationImport importPackage prog =
            insertBeforeFirstImport (.importS ["useTranslation"] importPackage) prog := by
          simp [ensureTranslationImport, h]
        have h2 : hasTranslationImport importPackage
            (insertBeforeFirstImport (.importS ["useTranslation"] importPackage) prog) = true := by
          rw [hasTranslationImport_insert]
          simp [hc]
        rw [h1]
        simp [ensureTranslationImport, h2]
      · simp only [Bool.not_eq_true] at hc
        have h1 : ensureTranslationImport importPackage prog = prog := by
          simp [ensureTranslationImport, h, insertBeforeFirstImport_noop _ _ hc]
        rw [h1, h1]

/-- C5 witness: a file importing only `react` gains exactly one
`useTranslation` import, placed first. -/
theorem claim5_ensure_import_witness :
    countTranslationImports "react-i18next"
      (ensureTranslationImport "react-i18next" (.cons (.importS ["React"] "react") .nil)) = 1 ∧
    firstImport
      (ensureTranslationImport "react-i18next" (.cons (.importS ["React"] "react") .nil)) =
      some (.importS ["useTranslation"] "react-i18next") :=
  (claim5_ensure_import "react-i18next" (.cons (.importS ["React"] "react") .nil)).2.1
    (by decide) (by decide)

/-! ### Claim C7: the attribute pass -/

/-- C7 counterexample, two parts. First, an allow-listed attribute with a
plain string literal value sitting outside every function (`<img alt="Hello world"/>`
at top level) is not rewritten, because the owning-unit lookup fails, so
"rewrites exactly when allow-listed and literal" is false. Second, an
allow-listed attribute (`title`) with a non-literal value is not left
completely unchanged: an allow-listed literal attribute nested inside its
expression value is still rewritten by the pass. -/
theorem claim7_counterexample :
    transformJSXAttributes "react-i18next"
        (.cons (.exprStmtS (.jsxE (.mk (.cons (.mk "alt" (.strA "Hello world")) .nil) .nil))) .nil)
        [] =
      (.cons (.exprStmtS (.jsxE (.mk (.cons (.mk "alt" (.strA "Hello world")) .nil) .nil))) .nil,
        []) ∧
    (transformJSXAttributes "react-i18next"
        (.cons (.funcDeclS (some "F") (.block (.cons (.returnS (.jsxE (.mk
          (.cons (.mk "title" (.exprA (.jsxE (.mk (.cons (.mk "alt" (.strA "X")) .nil) .nil))))
            .nil) .nil))) .nil))) .nil)
        []).1 ≠
      .cons (.funcDeclS (some "F") (.block (.cons (.returnS (.jsxE (.mk
        (.cons (.mk "title" (.exprA (.jsxE (.mk (.cons (.mk "alt" (.strA "X")) .nil) .nil))))
          .nil) .nil))) .nil))) .nil := by
  refine ⟨by decide, by decide⟩

/-- C7 (amended): the attribute pass rewrites an attribute into a translation
call exactly when its name is allow-listed, its value is a plain string
literal, and an enclosing function exists; a non-allow-listed attribute with a
literal (or absent) value is left completely unchanged; an attribute with a
non-literal value is never itself rewritten — the pass only recurses into its
expression value (where nested attributes are processed independently). -/
theorem claim7_attribute_pass (scope : Option String) (name : String) (s : String)
    (tr : Translations) :
    (JSX_ATTRIBUTES_TO_TRANSLATE.contains name = false →
      passAttr .attrP scope (.mk name (.strA s)) tr = (.mk name (.strA s), tr, false, false)) ∧
    (∀ fname, JSX_ATTRIBUTES_TO_TRANSLATE.contains name = true → scope = some fname →
      passAttr .attrP scope (.mk name (.strA s)) tr =
        (.mk name (.exprA (tCall (lowerFirst fname) (createTranslationKey (sanitizeText s)))),
         upsertTranslations (lowerFirst fname) (createTranslationKey (sanitizeText s))
           (sanitizeText s) tr,
         true, true)) ∧
    (JSX_ATTRIBUTES_TO_TRANSLATE.contains name = true → scope = none →
      passAttr .attrP scope (.mk name (.strA s)) tr = (.mk name (.strA s), tr, false, false)) ∧
    (∀ e : Expr, passAttr .attrP scope (.mk name (.exprA e)) tr =
      (.mk name (.exprA (passExpr .attrP scope e tr).1), (passExpr .attrP scope e tr).2)) ∧
    (passAttr .attrP scope (.mk name .noneA) tr = (.mk name .noneA, tr, false, false)) := by
  refine ⟨?_, ?_, ?_, ?_, ?_⟩
  · intro h
    have h' : name ∉ JSX_ATTRIBUTES_TO_TRANSLATE := by simpa using h
    simp [passAttr, h']
  · intro fname h hs
    subst hs
    have h' : name ∈ JSX_ATTRIBUTES_TO_TRANSLATE := by simpa using h
    simp [passAttr, h', tCall]
  · intro h hs
    subst hs
    have h' : name ∈ JSX_ATTRIBUTES_TO_TRANSLATE := by simpa using h
    simp [passAttr, h']
  · intro e
    rfl
  · rfl

/-- C7 witness: `alt="Profile picture"` inside unit `Welcome` becomes
`alt={t('welcome.profile-picture')}` and the catalog gains the entry. -/
theorem claim7_attribute_pass_witness :
    passAttr .attrP (some "Welcome") (.mk "alt" (.strA "Profile picture")) [] =
      (.mk "alt" (.exprA (tCall "welcome" "profile-picture")),
       [("welcome", [("profile-picture", "Profile picture")])], true, true) := by
  have h := (claim7_attribute_pass (some "Welcome") "alt" "Profile picture" []).2.1
    "Welcome" (by decide) rfl
  exact h.trans (by decide)

/-! ### Claim C8: the template deny-list -/

/-- C8 counterexample: the filter rejects only the template whose *direct*
container is the deny-listed attribute. A template standing in an
interpolation of that denied template has the expressions array as its parent
path, passes the filter and is rewritten: on
`className={`btn ${`Hello World`}`}` inside unit `F`, the denied attribute's
value is not left unchanged — its nested template becomes a `t(...)` call —
and the catalog gains an entry for the nested template's text, contradicting
"such nodes are left unchanged and no catalog entry is recorded for them". -/
theorem claim8_counterexample :
    (passAttr .tmplP (some "F")
        (.mk "className"
          (.exprA (.tmplE ["btn ", ""] (.cons (.tmplE ["Hello World"] .nil) .nil)))) []).1 ≠
      .mk "className"
        (.exprA (.tmplE ["btn ", ""] (.cons (.tmplE ["Hello World"] .nil) .nil))) ∧
    passAttr .tmplP (some "F")
        (.mk "className"
          (.exprA (.tmplE ["btn ", ""] (.cons (.tmplE ["Hello World"] .nil) .nil)))) [] =
      (.mk "className"
        (.exprA (.tmplE ["btn ", ""]
          (.cons (.callE (.identE "t") (.cons (.strLitE "f.hello-world") .nil)) .nil))),
       [("f", [("hello-world", "Hello World")])], true, true) := by
  refine ⟨by decide, by decide⟩

/-- C8 (amended): the template pass never replaces a template literal that is
the direct value of a deny-listed attribute, nor one whose immediate parent is
a tagged template invocation, and records no catalog entry derived from such a
node's own text: the node stays a template literal with its literal chunks
intact, and tree and catalog move only by the processing of its interpolation
subtrees (and, for the tagged form, of its tag), where nested template
literals are still rewritten. A denied template with no interpolations, and a
tagged template whose tag is a plain identifier and which has no
interpolations, are therefore left completely unchanged with no entry
recorded. -/
theorem claim8_template_denylist (scope : Option String) (name : String)
    (quasis : List String) (exprs : ExprList) (tr : Translations) :
    (TEMPLATE_LITERAL_BLACKLIST.contains name = true →
      passAttr .tmplP scope (.mk name (.exprA (.tmplE quasis exprs))) tr =
        (.mk name (.exprA (.tmplE quasis (passExprList .tmplP scope exprs tr).1)),
         (passExprList .tmplP scope exprs tr).2)) ∧
    (TEMPLATE_LITERAL_BLACKLIST.contains name = true → exprs = .nil →
      passAttr .tmplP scope (.mk name (.exprA (.tmplE quasis exprs))) tr =
        (.mk name (.exprA (.tmplE quasis exprs)), tr, false, false)) ∧
    (∀ tag : Expr,
      passExpr .tmplP scope (.taggedE tag quasis exprs) tr =
        (.taggedE (passExpr .tmplP scope tag tr).1 quasis
           (passExprList .tmplP scope exprs (passExpr .tmplP scope tag tr).2.1).1,
         (passExprList .tmplP scope exprs (passExpr .tmplP scope tag tr).2.1).2.1,
         ((passExpr .tmplP scope tag tr).2.2.1 ||
           (passExprList .tmplP scope exprs (passExpr .tmplP scope tag tr).2.1).2.2.1),
         ((passExpr .tmplP scope tag tr).2.2.2 ||
           (passExprList .tmplP scope exprs (passExpr .tmplP scope tag tr).2.1).2.2.2))) ∧
    (∀ t : String, exprs = .nil →
      passExpr .tmplP scope (.taggedE (.identE t) quasis exprs) tr =
        (.taggedE (.identE t) quasis exprs, tr, false, false)) := by
  refine ⟨?_, ?_, ?_, ?_⟩
  · intro h
    have h' : name ∈ TEMPLATE_LITERAL_BLACKLIST := by simpa using h
    simp [passAttr, isTemplateLiteral, h']
  · intro h hnil
    subst hnil
    have h' : name ∈ TEMPLATE_LITERAL_BLACKLIST := by simpa using h
    simp [passAttr, isTemplateLiteral, h', passExprList]
  · intro tag
    rfl
  · intro t hnil
    subst hnil
    rfl

/-- C8 witness: an interpolation-free template literal valued `className`
attribute is skipped entirely even though its text is translatable. -/
theorem claim8_template_denylist_witness :
    passAttr .tmplP (some "F") (.mk "className" (.exprA (.tmplE ["Hi"] .nil))) [] =
      (.mk "className" (.exprA (.tmplE ["Hi"] .nil)), [], false, false) :=
  (claim8_template_denylist (some "F") "className" ["Hi"] .nil []).2.1 (by decide) rfl

/-! ### Claim C10: the hook injector -/

/-- C10: when the function body is a single expression containing no
`useTranslation` call, inserting the hook rewrites it into a block whose first
statement is the hook binding and whose second returns the original
expression; a body already containing a `useTranslation` call is left
unchanged, and the operation is idempotent. -/
theorem claim10_ensure_hook :
    (∀ e : Expr, containsUTExpr e = false →
      ensureTranslationHook (.exprB e) =
        .block (.cons translationHook (.cons (.returnS e) .nil))) ∧
    (∀ b : FnBody, containsUTFnBody b = true → ensureTranslationHook b = b) ∧
    (∀ b : FnBody, ensureTranslationHook (ensureTranslationHook b) = ensureTranslationHook b) := by
  refine ⟨?_, ?_, ?_⟩
  · intro e he
    simp [ensureTranslationHook, containsUTFnBody, he]
  · intro b hb
    simp [ensureTranslationHook, hb]
  · intro b
    by_cases h : containsUTFnBody b = true
    · simp [ensureTranslationHook, h]
    · simp only [Bool.not_eq_true] at h
      have hins : ∀ ss : StmtList, containsUTStmts (.cons translationHook ss) = true := by
        intro ss
        simp [containsUTStmts, containsUTStmt, translationHook, containsUTExpr]
      match b, h with
      | .block ss, h =>
          have h1 : ensureTranslationHook (.block ss) = .block (.cons translationHook ss) := by
            simp [ensureTranslationHook, h]
          rw [h1]
          simp [ensureTranslationHook, containsUTFnBody, hins]
      | .exprB e, h =>
          have h1 : ensureTranslationHook (.exprB e) =
              .block (.cons translationHook (.cons (.returnS e) .nil)) := by
            simp [ensureTranslationHook, h]
          rw [h1]
          simp [ensureTranslationHook, containsUTFnBody, hins]

/-- C10 witness: the arrow body `() => <div/>` gains a block with the hook
first and the returned element second. -/
theorem claim10_ensure_hook_witness :
    ensureTranslationHook (.exprB (.jsxE (.mk .nil .nil))) =
      .block (.cons translationHook (.cons (.returnS (.jsxE (.mk .nil .nil))) .nil)) :=
  claim10_ensure_hook.1 (.jsxE (.mk .nil .nil)) (by decide)

/-! ### Claim C9: idempotence machinery

Small cleanliness facts about the replacement material. -/

theorem cleanStmt_translationHook (pk : PassKind) (inS : Bool) :
    cleanStmt pk inS translationHook = true := by
  simp [translationHook, cleanStmt, cleanExpr, cleanExprList]

theorem cleanExpr_tCall (pk : PassKind) (inS : Bool) (c k : String) :
    cleanExpr pk inS (tCall c k) = true := by
  simp [tCall, cleanExpr, cleanExprList]

theorem cleanProps_buildTemplateProps (pk : PassKind) (inS : Bool) :
    (orig vals : ExprList) → (i : Nat) → cleanExprList pk inS vals = true →
      cleanProps pk inS (buildTemplateProps i orig vals) = true
  | .nil, _, _, _ => rfl
  | .cons _ _, .nil, _, _ => rfl
  | .cons e rest, .cons e' rest', i, h => by
      simp only [cleanExprList, Bool.and_eq_true] at h
      simp [buildTemplateProps, cleanProps, h.1,
        cleanProps_buildTemplateProps pk inS rest rest' (i + 1) h.2]

theorem cleanFnBody_ensureTranslationHook (pk : PassKind) (inS : Bool) (b : FnBody)
    (h : cleanFnBody pk inS b = true) :
    cleanFnBody pk inS (ensureTranslationHook b) = true := by
  by_cases hc : containsUTFnBody b = true
  · simpa [ensureTranslationHook, hc] using h
  · simp only [Bool.not_eq_true] at hc
    match b, h with
    | .block ss, h =>
        have h' : cleanStmts pk inS ss = true := by simpa [cleanFnBody] using h
        simp [ensureTranslationHook, hc, cleanFnBody, cleanStmts, cleanStmt_translationHook, h']
    | .exprB e, h =>
        have h' : cleanExpr pk inS e = true := by simpa [cleanFnBody] using h
        simp [ensureTranslationHook, hc, cleanFnBody, cleanStmts, cleanStmt,
          translationHook, cleanExpr, cleanExprList, h']

theorem cleanStmts_insertBeforeFirstImport (pk : PassKind) (inS : Bool) (sp : List String)
    (p : String) :
    (ss : StmtList) → cleanStmts pk inS ss = true →
      cleanStmts pk inS (insertBeforeFirstImport (.importS sp p) ss) = true
  | .nil, _ => rfl
  | .cons (.importS a b) rest, h => by
      simpa [insertBeforeFirstImport, cleanStmts, cleanStmt] using h
  | .cons (.funcDeclS n b) rest, h => by
      simp only [cleanStmts, Bool.and_eq_true] at h
      simp [insertBeforeFirstImport, cleanStmts, h.1,
        cleanStmts_insertBeforeFirstImport pk inS sp p rest h.2]
  | .cons (.varDeclS pa i) rest, h => by
      simp only [cleanStmts, Bool.and_eq_true] at h
      simp [insertBeforeFirstImport, cleanStmts, h.1,
        cleanStmts_insertBeforeFirstImport pk inS sp p rest h.2]
  | .cons (.returnS e) rest, h => by
      simp only [cleanStmts, Bool.and_eq_true] at h
      simp [insertBeforeFirstImport, cleanStmts, h.1,
        cleanStmts_insertBeforeFirstImport pk inS sp p rest h.2]
  | .cons (.exprStmtS e) rest, h => by
      simp only [cleanStmts, Bool.and_eq_true] at h
      simp [insertBeforeFirstImport, cleanStmts, h.1,
        cleanStmts_insertBeforeFirstImport pk inS sp p rest h.2]
  | .cons .otherStmtS rest, h => by
      simp only [cleanStmts, Bool.and_eq_true] at h
      simp [insertBeforeFirstImport, cleanStmts, h.1,
        cleanStmts_insertBeforeFirstImport pk inS sp p rest h.2]

theorem cleanStmts_ensureTranslationImport (pk : PassKind) (inS : Bool) (pkg : String)
    (ss : StmtList) (h : cleanStmts pk inS ss = true) :
    cleanStmts pk inS (ensureTranslationImport pkg ss) = true := by
  by_cases hh : hasTranslationImport pkg ss = true
  · simpa [ensureTranslationImport, hh] using h
  · simp only [Bool.not_eq_true] at hh
    simp [ensureTranslationImport, hh,
      cleanStmts_insertBeforeFirstImport pk inS ["useTranslation"] pkg ss h]

theorem isTemplateLiteral_inv :
    (e : Expr) → isTemplateLiteral e = true → ∃ q es, e = .tmplE q es
  | .tmplE q es, _ => ⟨q, es, rfl⟩
  | .identE _, h => nomatch h
  | .strLitE _, h => nomatch h
  | .memberE _ _, h => nomatch h
  | .opaqueE _, h => nomatch h
  | .callE _ _, h => nomatch h
  | .objE _, h => nomatch h
  | .taggedE _ _ _, h => nomatch h
  | .arrowE _, h => nomatch h
  | .jsxE _, h => nomatch h

/-- Interpolation slots that hold no template literal at their top are in
particular a nesting-free expression list. -/
theorem noNestedInterps_noNestedList :
    (l : ExprList) → noNestedInterps l = true → noNestedExprList l = true
  | .nil, _ => rfl
  | .cons e rest, h => by
      simp only [noNestedInterps, Bool.and_eq_true] at h
      simp [noNestedExprList, h.1.2, noNestedInterps_noNestedList rest h.2]

set_option maxHeartbeats 1000000

/-! A pass is the identity (and touches neither catalog nor flags) on any
subtree that is clean for it. -/

mutual
theorem passExpr_id (pk : PassKind) (scope : Option String) :
    (e : Expr) → (tr : Translations) → cleanExpr pk scope.isSome e = true →
      passExpr pk scope e tr = (e, tr, false, false)
  | .identE n, tr, _ => rfl
  | .strLitE s, tr, _ => rfl
  | .memberE o p, tr, _ => rfl
  | .opaqueE s, tr, _ => rfl
  | .callE f args, tr, h => by
      simp only [cleanExpr, Bool.and_eq_true] at h
      simp [passExpr, passExpr_id pk scope f tr h.1, passExprList_id pk scope args tr h.2]
  | .objE ps, tr, h => by
      simp only [cleanExpr] at h
      simp [passExpr, passProps_id pk scope ps tr h]
  | .tmplE quasis exprs, tr, h => by
      have hch : cleanExprList pk scope.isSome exprs = true := by
        simp only [cleanExpr, Bool.and_eq_true] at h
        exact h.2
      have hrec := passExprList_id pk scope exprs tr hch
      cases pk with
      | tmplP =>
          cases scope with
          | some fname => simp [cleanExpr] at h
          | none => simp [passExpr, hrec]
      | textP => cases scope <;> simp [passExpr, hrec]
      | attrP => cases scope <;> simp [passExpr, hrec]
  | .taggedE tag quasis exprs, tr, h => by
      simp only [cleanExpr, Bool.and_eq_true] at h
      simp [passExpr, passExpr_id pk scope tag tr h.1, passExprList_id pk scope exprs tr h.2]
  | .arrowE b, tr, h => by
      simp only [cleanExpr] at h
      simp [passExpr, passFnBody_id pk (some "UnknownFunction") b tr h]
  | .jsxE el, tr, h => by
      simp only [cleanExpr] at h
      simp [passExpr, passElem_id pk scope el tr h]

theorem passExprList_id (pk : PassKind) (scope : Option String) :
    (l : ExprList) → (tr : Translations) → cleanExprList pk scope.isSome l = true →
      passExprList pk scope l tr = (l, tr, false, false)
  | .nil, tr, _ => rfl
  | .cons e rest, tr, h => by
      simp only [cleanExprList, Bool.and_eq_true] at h
      simp [passExprList, passExpr_id pk scope e tr h.1, passExprList_id pk scope rest tr h.2]

theorem passProps_id (pk : PassKind) (scope : Option String) :
    (l : OPropList) → (tr : Translations) → cleanProps pk scope.isSome l = true →
      passProps pk scope l tr = (l, tr, false, false)
  | .nil, tr, _ => rfl
  | .cons (.mk k v sh) rest, tr, h => by
      simp only [cleanProps, Bool.and_eq_true] at h
      simp [passProps, passExpr_id pk scope v tr h.1, passProps_id pk scope rest tr h.2]

theorem passAttr_id (pk : PassKind) (scope : Option String) :
    (a : JSXAttr) → (tr : Translations) → cleanAttr pk scope.isSome a = true →
      passAttr pk scope a tr = (a, tr, false, false)
  | .mk name (.strA s), tr, h => by
      cases pk with
      | attrP =>
          by_cases hallow : name ∈ JSX_ATTRIBUTES_TO_TRANSLATE
          · cases scope with
            | some fname => simp [cleanAttr, hallow] at h
            | none => simp [passAttr, hallow]
          · simp [passAttr, hallow]
      | textP => rfl
      | tmplP => rfl
  | .mk name (.exprA (.tmplE q es)), tr, h => by
      have hch : cleanExprList pk scope.isSome es = true := by
        cases pk with
        | tmplP =>
            by_cases hmem : name ∈ TEMPLATE_LITERAL_BLACKLIST
            · simpa [cleanAttr, isTemplateLiteral, hmem] using h
            · have h' : cleanExpr .tmplP scope.isSome (.tmplE q es) = true := by
                simpa [cleanAttr, isTemplateLiteral, hmem] using h
              simp only [cleanExpr, Bool.and_eq_true] at h'
              exact h'.2
        | textP =>
            have h' : cleanExpr .textP scope.isSome (.tmplE q es) = true := by
              simpa [cleanAttr] using h
            simp only [cleanExpr, Bool.and_eq_true] at h'
            exact h'.2
        | attrP =>
            have h' : cleanExpr .attrP scope.isSome (.tmplE q es) = true := by
              simpa [cleanAttr] using h
            simp only [cleanExpr, Bool.and_eq_true] at h'
            exact h'.2
      have hrec := passExprList_id pk scope es tr hch
      cases pk with
      | tmplP =>
          by_cases hmem : name ∈ TEMPLATE_LITERAL_BLACKLIST
          · simp [passAttr, isTemplateLiteral, hmem, hrec]
          · have h' : cleanExpr .tmplP scope.isSome (.tmplE q es) = true := by
              simpa [cleanAttr, isTemplateLiteral, hmem] using h
            have hs : scope = none := by
              cases scope with
              | none => rfl
              | some f => simp [cleanExpr] at h'
            subst hs
            simp [passAttr, isTemplateLiteral, hmem, passExpr, hrec]
      | textP => cases scope <;> simp [passAttr, passExpr, hrec]
      | attrP => cases scope <;> simp [passAttr, passExpr, hrec]
  | .mk name (.exprA (.identE n)), tr, h => by
      have h' : cleanExpr pk scope.isSome (.identE n) = true := by
        cases pk <;> simpa [cleanAttr, isTemplateLiteral] using h
      have hrec := passExpr_id pk scope (.identE n) tr h'
      cases pk <;> simp [passAttr, isTemplateLiteral, hrec]
  | .mk name (.exprA (.strLitE s)), tr, h => by
      have h' : cleanExpr pk scope.isSome (.strLitE s) = true := by
        cases pk <;> simpa [cleanAttr, isTemplateLiteral] using h
      have hrec := passExpr_id pk scope (.strLitE s) tr h'
      cases pk <;> simp [passAttr, isTemplateLiteral, hrec]
  | .mk name (.exprA (.memberE o p)), tr, h => by
      have h' : cleanExpr pk scope.isSome (.memberE o p) = true := by
        cases pk <;> simpa [cleanAttr, isTemplateLiteral] using h
      have hrec := passExpr_id pk scope (.memberE o p) tr h'
      cases pk <;> simp [passAttr, isTemplateLiteral, hrec]
  | .mk name (.exprA (.opaqueE s)), tr, h => by
      have h' : cleanExpr pk scope.isSome (.opaqueE s) = true := by
        cases pk <;> simpa [cleanAttr, isTemplateLiteral] using h
      have hrec := passExpr_id pk scope (.opaqueE s) tr h'
      cases pk <;> simp [passAttr, isTemplateLiteral, hrec]
  | .mk name (.exprA (.callE f args)), tr, h => by
      have h' : cleanExpr pk scope.isSome (.callE f args) = true := by
        cases pk <;> simpa [cleanAttr, isTemplateLiteral] using h
      have hrec := passExpr_id pk scope (.callE f args) tr h'
      cases pk <;> simp [passAttr, isTemplateLiteral, hrec]
  | .mk name (.exprA (.objE ps)), tr, h => by
      have h' : cleanExpr pk scope.isSome (.objE ps) = true := by
        cases pk <;> simpa [cleanAttr, isTemplateLiteral] using h
      have hrec := passExpr_id pk scope (.objE ps) tr h'
      cases pk <;> simp [passAttr, isTemplateLiteral, hrec]
  | .mk name (.exprA (.taggedE tag q es)), tr, h => by
      have h' : cleanExpr pk scope.isSome (.taggedE tag q es) = true := by
        cases pk <;> simpa [cleanAttr, isTemplateLiteral] using h
      have hrec := passExpr_id pk scope (.taggedE tag q es) tr h'
      cases pk <;> simp [passAttr, isTemplateLiteral, hrec]
  | .mk name (.exprA (.arrowE b)), tr, h => by
      have h' : cleanExpr pk scope.isSome (.arrowE b) = true := by
        cases pk <;> simpa [cleanAttr, isTemplateLiteral] using h
      have hrec := passExpr_id pk scope (.arrowE b) tr h'
      cases pk <;> simp [passAttr, isTemplateLiteral, hrec]
  | .mk name (.exprA (.jsxE el)), tr, h => by
      have h' : cleanExpr pk scope.isSome (.jsxE el) = true := by
        cases pk <;> simpa [cleanAttr, isTemplateLiteral] using h
      have hrec := passExpr_id pk scope (.jsxE el) tr h'
      cases pk <;> simp [passAttr, isTemplateLiteral, hrec]
  | .mk name .noneA, tr, _ => by cases pk <;> rfl

theorem passAttrs_id (pk : PassKind) (scope : Option String) :
    (l : JSXAttrList) → (tr : Translations) → cleanAttrs pk scope.isSome l = true →
      passAttrs pk scope l tr = (l, tr, false, false)
  | .nil, tr, _ => rfl
  | .cons a rest, tr, h => by
      simp only [cleanAttrs, Bool.and_eq_true] at h
      simp [passAttrs, passAttr_id pk scope a tr h.1, passAttrs_id pk scope rest tr h.2]

theorem passChild_id (pk : PassKind) (scope : Option String) :
    (c : JSXChild) → (tr : Translations) → cleanChild pk scope.isSome c = true →
      passChild pk scope c tr = (c, tr, false, false)
  | .textC s, tr, h => by
      cases pk with
      | textP =>
          cases scope with
          | some fname =>
              have hbl : jsTrim s ∈ TRANSLATION_BLACKLIST := by
                simpa [cleanChild] using h
              simp [passChild, hbl]
          | none => rfl
      | attrP => cases scope <;> rfl
      | tmplP => cases scope <;> rfl
  | .exprC e, tr, h => by
      simp only [cleanChild] at h
      simp [passChild, passExpr_id pk scope e tr h]
  | .elemC el, tr, h => by
      simp only [cleanChild] at h
      simp [passChild, passElem_id pk scope el tr h]

theorem passChildren_id (pk : PassKind) (scope : Option String) :
    (l : JSXChildList) → (tr : Translations) → cleanChildren pk scope.isSome l = true →
      passChildren pk scope l tr = (l, tr, false, false)
  | .nil, tr, _ => rfl
  | .cons c rest, tr, h => by
      simp only [cleanChildren, Bool.and_eq_true] at h
      simp [passChildren, passChild_id pk scope c tr h.1, passChildren_id pk scope rest tr h.2]

theorem passElem_id (pk : PassKind) (scope : Option String) :
    (el : JSXElem) → (tr : Translations) → cleanElem pk scope.isSome el = true →
      passElem pk scope el tr = (el, tr, false, false)
  | .mk attrs children, tr, h => by
      simp only [cleanElem, Bool.and_eq_true] at h
      simp [passElem, passAttrs_id pk scope attrs tr h.1, passChildren_id pk scope children tr h.2]

theorem passFnBody_id (pk : PassKind) (scope : Option String) :
    (b : FnBody) → (tr : Translations) → cleanFnBody pk scope.isSome b = true →
      passFnBody pk scope b tr = (b, tr, false, false)
  | .block ss, tr, h => by
      simp only [cleanFnBody] at h
      simp [passFnBody, passStmts_id pk scope ss tr h]
  | .exprB e, tr, h => by
      simp only [cleanFnBody] at h
      simp [passFnBody, passExpr_id pk scope e tr h]

theorem passStmt_id (pk : PassKind) (scope : Option String) :
    (s : Stmt) → (tr : Translations) → cleanStmt pk scope.isSome s = true →
      passStmt pk scope s tr = (s, tr, false, false)
  | .importS sp src, tr, _ => rfl
  | .funcDeclS name b, tr, h => by
      have h' : cleanFnBody pk true b = true := by simpa [cleanStmt] using h
      simp [passStmt, passFnBody_id pk (some (name.getD "UnknownFunction")) b tr h']
  | .varDeclS pat (.arrowE b), tr, h => by
      have h' : cleanFnBody pk true b = true := by simpa [cleanStmt] using h
      cases pat with
      | idPat n => simp [passStmt, passFnBody_id pk (some n) b tr h']
      | objPat ns => simp [passStmt, passFnBody_id pk (some "UnknownFunction") b tr h']
  | .varDeclS pat (.identE n), tr, h => by
      have h' : cleanExpr pk scope.isSome (.identE n) = true := by simpa [cleanStmt] using h
      simp [passStmt, passExpr_id pk scope (.identE n) tr h']
  | .varDeclS pat (.strLitE s), tr, h => by
      have h' : cleanExpr pk scope.isSome (.strLitE s) = true := by simpa [cleanStmt] using h
      simp [passStmt, passExpr_id pk scope (.strLitE s) tr h']
  | .varDeclS pat (.memberE o p), tr, h => by
      have h' : cleanExpr pk scope.isSome (.memberE o p) = true := by simpa [cleanStmt] using h
      simp [passStmt, passExpr_id pk scope (.memberE o p) tr h']
  | .varDeclS pat (.opaqueE s), tr, h => by
      have h' : cleanExpr pk scope.isSome (.opaqueE s) = true := by simpa [cleanStmt] using h
      simp [passStmt, passExpr_id pk scope (.opaqueE s) tr h']
  | .varDeclS pat (.callE f args), tr, h => by
      have h' : cleanExpr pk scope.isSome (.callE f args) = true := by simpa [cleanStmt] using h
      simp [passStmt, passExpr_id pk scope (.callE f args) tr h']
  | .varDeclS pat (.objE ps), tr, h => by
      have h' : cleanExpr pk scope.isSome (.objE ps) = true := by simpa [cleanStmt] using h
      simp [passStmt, passExpr_id pk scope (.objE ps) tr h']
  | .varDeclS pat (.tmplE q es), tr, h => by
      have h' : cleanExpr pk scope.isSome (.tmplE q es) = true := by simpa [cleanStmt] using h
      simp [passStmt, passExpr_id pk scope (.tmplE q es) tr h']
  | .varDeclS pat (.taggedE tag q es), tr, h => by
      have h' : cleanExpr pk scope.isSome (.taggedE tag q es) = true := by
        simpa [cleanStmt] using h
      simp [passStmt, passExpr_id pk scope (.taggedE tag q es) tr h']
  | .varDeclS pat (.jsxE el), tr, h => by
      have h' : cleanExpr pk scope.isSome (.jsxE el) = true := by simpa [cleanStmt] using h
      simp [passStmt, passExpr_id pk scope (.jsxE el) tr h']
  | .returnS e, tr, h => by
      have h' : cleanExpr pk scope.isSome e = true := by simpa [cleanStmt] using h
      simp [passStmt, passExpr_id pk scope e tr h']
  | .exprStmtS e, tr, h => by
      have h' : cleanExpr pk scope.isSome e = true := by simpa [cleanStmt] using h
      simp [passStmt, passExpr_id pk scope e tr h']
  | .otherStmtS, tr, _ => rfl

theorem passStmts_id (pk : PassKind) (scope : Option String) :
    (l : StmtList) → (tr : Translations) → cleanStmts pk scope.isSome l = true →
      passStmts pk scope l tr = (l, tr, false, false)
  | .nil, tr, _ => rfl
  | .cons s rest, tr, h => by
      simp only [cleanStmts, Bool.and_eq_true] at h
      simp [passStmts, passStmt_id pk scope s tr h.1, passStmts_id pk scope rest tr h.2]
end

theorem cleanExpr_tmplReplacement (pk : PassKind) (inS : Bool) (c k : String)
    (props : OPropList) (hp : cleanProps pk inS props = true) :
    cleanExpr pk inS (tmplReplacement c k props) = true := by
  match props, hp with
  | .nil, _ => simp [tmplReplacement, cleanExpr, cleanExprList]
  | .cons p ps, hp =>
      simp [tmplReplacement, cleanExpr, cleanExprList, hp]

theorem cleanAttr_exprA (pk : PassKind) (inS : Bool) (name : String) :
    (out : Expr) → cleanExpr pk inS out = true →
      cleanAttr pk inS (.mk name (.exprA out)) = true
  | .tmplE q es, h => by
      cases pk with
      | tmplP =>
          by_cases hmem : name ∈ TEMPLATE_LITERAL_BLACKLIST
          · have h2 : cleanExprList .tmplP inS es = true := by
              simp only [cleanExpr, Bool.and_eq_true] at h
              exact h.2
            simp [cleanAttr, isTemplateLiteral, hmem, h2]
          · simp [cleanAttr, isTemplateLiteral, hmem, h]
      | textP => simpa [cleanAttr] using h
      | attrP => simpa [cleanAttr] using h
  | .identE n, h => by cases pk <;> simp [cleanAttr, isTemplateLiteral, h]
  | .strLitE s, h => by cases pk <;> simp [cleanAttr, isTemplateLiteral, h]
  | .memberE o p, h => by cases pk <;> simp [cleanAttr, isTemplateLiteral, h]
  | .opaqueE s, h => by cases pk <;> simp [cleanAttr, isTemplateLiteral, h]
  | .callE f args, h => by cases pk <;> simp [cleanAttr, isTemplateLiteral, h]
  | .objE ps, h => by cases pk <;> simp [cleanAttr, isTemplateLiteral, h]
  | .taggedE tag q es, h => by cases pk <;> simp [cleanAttr, isTemplateLiteral, h]
  | .arrowE b, h => by cases pk <;> simp [cleanAttr, isTemplateLiteral, h]
  | .jsxE el, h => by cases pk <;> simp [cleanAttr, isTemplateLiteral, h]

/-! On nesting-free input, the output of pass `pk` contains no remaining
`pk`-candidates inside a function: every candidate's replacement landed in the
live tree. (Without nesting-freeness this fails: a candidate standing directly
in a replaced template's interpolation survives raw.) -/

mutual
theorem passExpr_cleanSelf (pk : PassKind) (scope : Option String) :
    (e : Expr) → (tr : Translations) → noNestedExpr e = true →
      cleanExpr pk scope.isSome (passExpr pk scope e tr).1 = true
  | .identE n, tr, _ => rfl
  | .strLitE s, tr, _ => rfl
  | .memberE o p, tr, _ => rfl
  | .opaqueE s, tr, _ => rfl
  | .callE f args, tr, h => by
      simp only [noNestedExpr, Bool.and_eq_true] at h
      simp [passExpr, cleanExpr, passExpr_cleanSelf pk scope f tr h.1,
        passExprList_cleanSelf pk scope args (passExpr pk scope f tr).2.1 h.2]
  | .objE ps, tr, h => by
      simp only [noNestedExpr] at h
      simp [passExpr, cleanExpr, passProps_cleanSelf pk scope ps tr h]
  | .tmplE quasis exprs, tr, h => by
      have hi : noNestedInterps exprs = true := by simpa [noNestedExpr] using h
      have hl : noNestedExprList exprs = true := noNestedInterps_noNestedList exprs hi
      cases pk with
      | tmplP =>
          cases scope with
          | some fname =>
              simp only [passExpr]
              exact cleanExpr_tmplReplacement .tmplP true _ _ _
                (cleanProps_buildTemplateProps .tmplP true exprs _ 0
                  (passInterpList_cleanSelf .tmplP (some fname) exprs _ hi))
          | none =>
              have hc := passExprList_cleanSelf .tmplP none exprs tr hl
              simp only [Option.isSome_none] at hc
              simp [passExpr, cleanExpr, hc]
      | textP =>
          simp [passExpr, cleanExpr, passExprList_cleanSelf .textP scope exprs tr hl]
      | attrP =>
          simp [passExpr, cleanExpr, passExprList_cleanSelf .attrP scope exprs tr hl]
  | .taggedE tag quasis exprs, tr, h => by
      simp only [noNestedExpr, Bool.and_eq_true] at h
      have hl : noNestedExprList exprs = true := noNestedInterps_noNestedList exprs h.2
      simp [passExpr, cleanExpr, passExpr_cleanSelf pk scope tag tr h.1,
        passExprList_cleanSelf pk scope exprs (passExpr pk scope tag tr).2.1 hl]
  | .arrowE b, tr, h => by
      simp only [noNestedExpr] at h
      have hb := passFnBody_cleanSelf pk (some "UnknownFunction") b tr h
      simp only [passExpr, cleanExpr]
      by_cases hs : (passFnBody pk (some "UnknownFunction") b tr).2.2.1 = true
      · simp [hs, cleanFnBody_ensureTranslationHook pk true _ hb]
      · simp only [Bool.not_eq_true] at hs
        simpa [hs] using hb
  | .jsxE el, tr, h => by
      simp only [noNestedExpr] at h
      simp [passExpr, cleanExpr, passElem_cleanSelf pk scope el tr h]

theorem passExprList_cleanSelf (pk : PassKind) (scope : Option String) :
    (l : ExprList) → (tr : Translations) → noNestedExprList l = true →
      cleanExprList pk scope.isSome (passExprList pk scope l tr).1 = true
  | .nil, tr, _ => rfl
  | .cons e rest, tr, h => by
      simp only [noNestedExprList, Bool.and_eq_true] at h
      simp [passExprList, cleanExprList, passExpr_cleanSelf pk scope e tr h.1,
        passExprList_cleanSelf pk scope rest (passExpr pk scope e tr).2.1 h.2]

theorem passInterpList_cleanSelf (pk : PassKind) (scope : Option String) :
    (l : ExprList) → (tr : Translations) → noNestedInterps l = true →
      cleanExprList pk scope.isSome (passInterpList pk scope l tr).1 = true
  | .nil, tr, _ => rfl
  | .cons (.tmplE q es) rest, tr, h => by
      simp [noNestedInterps, isTemplateLiteral] at h
  | .cons (.identE n) rest, tr, h => by
      simp only [noNestedInterps, Bool.and_eq_true] at h
      simp [passInterpList, cleanExprList, passExpr_cleanSelf pk scope (.identE n) tr h.1.2,
        passInterpList_cleanSelf pk scope rest (passExpr pk scope (.identE n) tr).2.1 h.2]
  | .cons (.strLitE s) rest, tr, h => by
      simp only [noNestedInterps, Bool.and_eq_true] at h
      simp [passInterpList, cleanExprList, passExpr_cleanSelf pk scope (.strLitE s) tr h.1.2,
        passInterpList_cleanSelf pk scope rest (passExpr pk scope (.strLitE s) tr).2.1 h.2]
  | .cons (.memberE o p) rest, tr, h => by
      simp only [noNestedInterps, Bool.and_eq_true] at h
      simp [passInterpList, cleanExprList, passExpr_cleanSelf pk scope (.memberE o p) tr h.1.2,
        passInterpList_cleanSelf pk scope rest (passExpr pk scope (.memberE o p) tr).2.1 h.2]
  | .cons (.opaqueE s) rest, tr, h => by
      simp only [noNestedInterps, Bool.and_eq_true] at h
      simp [passInterpList, cleanExprList, passExpr_cleanSelf pk scope (.opaqueE s) tr h.1.2,
        passInterpList_cleanSelf pk scope rest (passExpr pk scope (.opaqueE s) tr).2.1 h.2]
  | .cons (.callE f args) rest, tr, h => by
      simp only [noNestedInterps, Bool.and_eq_true] at h
      simp [passInterpList, cleanExprList,
        passExpr_cleanSelf pk scope (.callE f args) tr h.1.2,
        passInterpList_cleanSelf pk scope rest (passExpr pk scope (.callE f args) tr).2.1 h.2]
  | .cons (.objE ps) rest, tr, h => by
      simp only [noNestedInterps, Bool.and_eq_true] at h
      simp [passInterpList, cleanExprList, passExpr_cleanSelf pk scope (.objE ps) tr h.1.2,
        passInterpList_cleanSelf pk scope rest (passExpr pk scope (.objE ps) tr).2.1 h.2]
  | .cons (.taggedE tag q es) rest, tr, h => by
      simp only [noNestedInterps, Bool.and_eq_true] at h
      simp [passInterpList, cleanExprList,
        passExpr_cleanSelf pk scope (.taggedE tag q es) tr h.1.2,
        passInterpList_cleanSelf pk scope rest
          (passExpr pk scope (.taggedE tag q es) tr).2.1 h.2]
  | .cons (.arrowE b) rest, tr, h => by
      simp only [noNestedInterps, Bool.and_eq_true] at h
      simp [passInterpList, cleanExprList, passExpr_cleanSelf pk scope (.arrowE b) tr h.1.2,
        passInterpList_cleanSelf pk scope rest (passExpr pk scope (.arrowE b) tr).2.1 h.2]
  | .cons (.jsxE el) rest, tr, h => by
      simp only [noNestedInterps, Bool.and_eq_true] at h
      simp [passInterpList, cleanExprList, passExpr_cleanSelf pk scope (.jsxE el) tr h.1.2,
        passInterpList_cleanSelf pk scope rest (passExpr pk scope (.jsxE el) tr).2.1 h.2]

theorem passProps_cleanSelf (pk : PassKind) (scope : Option String) :
    (l : OPropList) → (tr : Translations) → noNestedProps l = true →
      cleanProps pk scope.isSome (passProps pk scope l tr).1 = true
  | .nil, tr, _ => rfl
  | .cons (.mk k v sh) rest, tr, h => by
      simp only [noNestedProps, Bool.and_eq_true] at h
      simp [passProps, cleanProps, passExpr_cleanSelf pk scope v tr h.1,
        passProps_cleanSelf pk scope rest (passExpr pk scope v tr).2.1 h.2]

theorem passAttr_cleanSelf (pk : PassKind) (scope : Option String) :
    (a : JSXAttr) → (tr : Translations) → noNestedAttr a = true →
      cleanAttr pk scope.isSome (passAttr pk scope a tr).1 = true
  | .mk name (.strA s), tr, _ => by
      cases pk with
      | attrP =>
          by_cases hallow : name ∈ JSX_ATTRIBUTES_TO_TRANSLATE
          · cases scope with
            | some fname =>
                simp [passAttr, hallow, cleanAttr, cleanExpr_tCall]
            | none => simp [passAttr, hallow, cleanAttr]
          · simp [passAttr, hallow, cleanAttr]
      | textP => rfl
      | tmplP => rfl
  | .mk name (.exprA (.tmplE q es)), tr, h => by
      have he : noNestedExpr (.tmplE q es) = true := by simpa [noNestedAttr] using h
      have hi : noNestedInterps es = true := by simpa [noNestedExpr] using he
      have hl : noNestedExprList es = true := noNestedInterps_noNestedList es hi
      have hrec := passExprList_cleanSelf pk scope es tr hl
      have hexp := passExpr_cleanSelf pk scope (.tmplE q es) tr he
      cases pk with
      | tmplP =>
          by_cases hmem : name ∈ TEMPLATE_LITERAL_BLACKLIST
          · simp [passAttr, isTemplateLiteral, hmem, cleanAttr, hrec]
          · simp [passAttr, isTemplateLiteral, hmem,
              cleanAttr_exprA .tmplP scope.isSome name _ hexp]
      | textP =>
          simp [passAttr, cleanAttr_exprA .textP scope.isSome name _ hexp]
      | attrP =>
          simp [passAttr, cleanAttr_exprA .attrP scope.isSome name _ hexp]
  | .mk name (.exprA (.identE n)), tr, h => by
      have he : noNestedExpr (.identE n) = true := by simpa [noNestedAttr] using h
      have hexp := passExpr_cleanSelf pk scope (.identE n) tr he
      have hca := cleanAttr_exprA pk scope.isSome name _ hexp
      cases pk <;> simp [passAttr, isTemplateLiteral, hca]
  | .mk name (.exprA (.strLitE s)), tr, h => by
      have he : noNestedExpr (.strLitE s) = true := by simpa [noNestedAttr] using h
      have hexp := passExpr_cleanSelf pk scope (.strLitE s) tr he
      have hca := cleanAttr_exprA pk scope.isSome name _ hexp
      cases pk <;> simp [passAttr, isTemplateLiteral, hca]
  | .mk name (.exprA (.memberE o p)), tr, h => by
      have he : noNestedExpr (.memberE o p) = true := by simpa [noNestedAttr] using h
      have hexp := passExpr_cleanSelf pk scope (.memberE o p) tr he
      have hca := cleanAttr_exprA pk scope.isSome name _ hexp
      cases pk <;> simp [passAttr, isTemplateLiteral, hca]
  | .mk name (.exprA (.opaqueE s)), tr, h => by
      have he : noNestedExpr (.opaqueE s) = true := by simpa [noNestedAttr] using h
      have hexp := passExpr_cleanSelf pk scope (.opaqueE s) tr he
      have hca := cleanAttr_exprA pk scope.isSome name _ hexp
      cases pk <;> simp [passAttr, isTemplateLiteral, hca]
  | .mk name (.exprA (.callE f args)), tr, h => by
      have he : noNestedExpr (.callE f args) = true := by simpa [noNestedAttr] using h
      have hexp := passExpr_cleanSelf pk scope (.callE f args) tr he
      have hca := cleanAttr_exprA pk scope.isSome name _ hexp
      cases pk <;> simp [passAttr, isTemplateLiteral, hca]
  | .mk name (.exprA (.objE ps)), tr, h => by
      have he : noNestedExpr (.objE ps) = true := by simpa [noNestedAttr] using h
      have hexp := passExpr_cleanSelf pk scope (.objE ps) tr he
      have hca := cleanAttr_exprA pk scope.isSome name _ hexp
      cases pk <;> simp [passAttr, isTemplateLiteral, hca]
  | .mk name (.exprA (.taggedE tag q es)), tr, h => by
      have he : noNestedExpr (.taggedE tag q es) = true := by simpa [noNestedAttr] using h
      have hexp := passExpr_cleanSelf pk scope (.taggedE tag q es) tr he
      have hca := cleanAttr_exprA pk scope.isSome name _ hexp
      cases pk <;> simp [passAttr, isTemplateLiteral, hca]
  | .mk name (.exprA (.arrowE b)), tr, h => by
      have he : noNestedExpr (.arrowE b) = true := by simpa [noNestedAttr] using h
      have hexp := passExpr_cleanSelf pk scope (.arrowE b) tr he
      have hca := cleanAttr_exprA pk scope.isSome name _ hexp
      cases pk <;> simp [passAttr, isTemplateLiteral, hca]
  | .mk name (.exprA (.jsxE el)), tr, h => by
      have he : noNestedExpr (.jsxE el) = true := by simpa [noNestedAttr] using h
      have hexp := passExpr_cleanSelf pk scope (.jsxE el) tr he
      have hca := cleanAttr_exprA pk scope.isSome name _ hexp
      cases pk <;> simp [passAttr, isTemplateLiteral, hca]
  | .mk name .noneA, tr, _ => by cases pk <;> rfl

theorem passAttrs_cleanSelf (pk : PassKind) (scope : Option String) :
    (l : JSXAttrList) → (tr : Translations) → noNestedAttrs l = true →
      cleanAttrs pk scope.isSome (passAttrs pk scope l tr).1 = true
  | .nil, tr, _ => rfl
  | .cons a rest, tr, h => by
      simp only [noNestedAttrs, Bool.and_eq_true] at h
      simp [passAttrs, cleanAttrs, passAttr_cleanSelf pk scope a tr h.1,
        passAttrs_cleanSelf pk scope rest (passAttr pk scope a tr).2.1 h.2]

theorem passChild_cleanSelf (pk : PassKind) (scope : Option String) :
    (c : JSXChild) → (tr : Translations) → noNestedChild c = true →
      cleanChild pk scope.isSome (passChild pk scope c tr).1 = true
  | .textC s, tr, _ => by
      cases pk with
      | textP =>
          cases scope with
          | some fname =>
              by_cases hbl : jsTrim s ∈ TRANSLATION_BLACKLIST
              · simp [passChild, hbl, cleanChild]
              · simp [passChild, hbl, cleanChild, cleanExpr_tCall]
          | none => rfl
      | attrP => cases scope <;> rfl
      | tmplP => cases scope <;> rfl
  | .exprC e, tr, h => by
      simp only [noNestedChild] at h
      simp [passChild, cleanChild, passExpr_cleanSelf pk scope e tr h]
  | .elemC el, tr, h => by
      simp only [noNestedChild] at h
      simp [passChild, cleanChild, passElem_cleanSelf pk scope el tr h]

theorem passChildren_cleanSelf (pk : PassKind) (scope : Option String) :
    (l : JSXChildList) → (tr : Translations) → noNestedChildren l = true →
      cleanChildren pk scope.isSome (passChildren pk scope l tr).1 = true
  | .nil, tr, _ => rfl
  | .cons c rest, tr, h => by
      simp only [noNestedChildren, Bool.and_eq_true] at h
      simp [passChildren, cleanChildren, passChild_cleanSelf pk scope c tr h.1,
        passChildren_cleanSelf pk scope rest (passChild pk scope c tr).2.1 h.2]

theorem passElem_cleanSelf (pk : PassKind) (scope : Option String) :
    (el : JSXElem) → (tr : Translations) → noNestedElem el = true →
      cleanElem pk scope.isSome (passElem pk scope el tr).1 = true
  | .mk attrs children, tr, h => by
      simp only [noNestedElem, Bool.and_eq_true] at h
      simp [passElem, cleanElem, passAttrs_cleanSelf pk scope attrs tr h.1,
        passChildren_cleanSelf pk scope children (passAttrs pk scope attrs tr).2.1 h.2]

theorem passFnBody_cleanSelf (pk : PassKind) (scope : Option String) :
    (b : FnBody) → (tr : Translations) → noNestedFnBody b = true →
      cleanFnBody pk scope.isSome (passFnBody pk scope b tr).1 = true
  | .block ss, tr, h => by
      simp only [noNestedFnBody] at h
      simp [passFnBody, cleanFnBody, passStmts_cleanSelf pk scope ss tr h]
  | .exprB e, tr, h => by
      simp only [noNestedFnBody] at h
      simp [passFnBody, cleanFnBody, passExpr_cleanSelf pk scope e tr h]

theorem passStmt_cleanSelf (pk : PassKind) (scope : Option String) :
    (s : Stmt) → (tr : Translations) → noNestedStmt s = true →
      cleanStmt pk scope.isSome (passStmt pk scope s tr).1 = true
  | .importS sp src, tr, _ => rfl
  | .funcDeclS name b, tr, h => by
      have h' : noNestedFnBody b = true := by simpa [noNestedStmt] using h
      have hb := passFnBody_cleanSelf pk (some (name.getD "UnknownFunction")) b tr h'
      simp only [passStmt, cleanStmt]
      by_cases hs : (passFnBody pk (some (name.getD "UnknownFunction")) b tr).2.2.1 = true
      · simp [hs, cleanFnBody_ensureTranslationHook pk true _ hb]
      · simp only [Bool.not_eq_true] at hs
        simpa [hs] using hb
  | .varDeclS pat (.arrowE b), tr, h => by
      have h' : noNestedFnBody b = true := by simpa [noNestedStmt, noNestedExpr] using h
      cases pat with
      | idPat n =>
          have hb := passFnBody_cleanSelf pk (some n) b tr h'
          simp only [passStmt, cleanStmt]
          by_cases hs : (passFnBody pk (some n) b tr).2.2.1 = true
          · simp [hs, cleanFnBody_ensureTranslationHook pk true _ hb]
          · simp only [Bool.not_eq_true] at hs
            simpa [hs] using hb
      | objPat ns =>
          have hb := passFnBody_cleanSelf pk (some "UnknownFunction") b tr h'
          simp only [passStmt, cleanStmt]
          by_cases hs : (passFnBody pk (some "UnknownFunction") b tr).2.2.1 = true
          · simp [hs, cleanFnBody_ensureTranslationHook pk true _ hb]
          · simp only [Bool.not_eq_true] at hs
            simpa [hs] using hb
  | .varDeclS pat (.identE n), tr, _ => by
      simp [passStmt, cleanStmt, passExpr, cleanExpr]
  | .varDeclS pat (.strLitE s), tr, _ => by
      simp [passStmt, cleanStmt, passExpr, cleanExpr]
  | .varDeclS pat (.memberE o p), tr, _ => by
      simp [passStmt, cleanStmt, passExpr, cleanExpr]
  | .varDeclS pat (.opaqueE s), tr, _ => by
      simp [passStmt, cleanStmt, passExpr, cleanExpr]
  | .varDeclS pat (.callE f args), tr, h => by
      have h' : noNestedExpr (.callE f args) = true := by simpa [noNestedStmt] using h
      have hout := passExpr_cleanSelf pk scope (.callE f args) tr h'
      simp only [passExpr] at hout ⊢
      simpa [passStmt, cleanStmt] using hout
  | .varDeclS pat (.objE ps), tr, h => by
      have h' : noNestedExpr (.objE ps) = true := by simpa [noNestedStmt] using h
      have hout := passExpr_cleanSelf pk scope (.objE ps) tr h'
      simp only [passExpr] at hout ⊢
      simpa [passStmt, cleanStmt] using hout
  | .varDeclS pat (.tmplE q es), tr, h => by
      have h' : noNestedExpr (.tmplE q es) = true := by simpa [noNestedStmt] using h
      have hi : noNestedInterps es = true := by simpa [noNestedExpr] using h'
      have hl : noNestedExprList es = true := noNestedInterps_noNestedList es hi
      cases pk with
      | tmplP =>
          cases scope with
          | some fname =>
              simp only [passStmt, passExpr, cleanStmt]
              exact cleanExpr_tmplReplacement .tmplP true _ _ _
                (cleanProps_buildTemplateProps .tmplP true es _ 0
                  (passInterpList_cleanSelf .tmplP (some fname) es _ hi))
          | none =>
              have hc := passExprList_cleanSelf .tmplP none es tr hl
              simp only [Option.isSome_none] at hc
              simp [passStmt, passExpr, cleanStmt, cleanExpr, hc]
      | textP =>
          simp [passStmt, passExpr, cleanStmt, cleanExpr,
            passExprList_cleanSelf .textP scope es tr hl]
      | attrP =>
          simp [passStmt, passExpr, cleanStmt, cleanExpr,
            passExprList_cleanSelf .attrP scope es tr hl]
  | .varDeclS pat (.taggedE tag q es), tr, h => by
      have h' : noNestedExpr (.taggedE tag q es) = true := by simpa [noNestedStmt] using h
      have hout := passExpr_cleanSelf pk scope (.taggedE tag q es) tr h'
      simp only [passExpr] at hout ⊢
      simpa [passStmt, cleanStmt] using hout
  | .varDeclS pat (.jsxE el), tr, h => by
      have h' : noNestedExpr (.jsxE el) = true := by simpa [noNestedStmt] using h
      have hout := passExpr_cleanSelf pk scope (.jsxE el) tr h'
      simp only [passExpr] at hout ⊢
      simpa [passStmt, cleanStmt] using hout
  | .returnS e, tr, h => by
      have h' : noNestedExpr e = true := by simpa [noNestedStmt] using h
      simp [passStmt, cleanStmt, passExpr_cleanSelf pk scope e tr h']
  | .exprStmtS e, tr, h => by
      have h' : noNestedExpr e = true := by simpa [noNestedStmt] using h
      simp [passStmt, cleanStmt, passExpr_cleanSelf pk scope e tr h']
  | .otherStmtS, tr, _ => rfl

theorem passStmts_cleanSelf (pk : PassKind) (scope : Option String) :
    (l : StmtList) → (tr : Translations) → noNestedStmts l = true →
      cleanStmts pk scope.isSome (passStmts pk scope l tr).1 = true
  | .nil, tr, _ => rfl
  | .cons s rest, tr, h => by
      simp only [noNestedStmts, Bool.and_eq_true] at h
      simp [passStmts, cleanStmts, passStmt_cleanSelf pk scope s tr h.1,
        passStmts_cleanSelf pk scope rest (passStmt pk scope s tr).2.1 h.2]
end

/-! No pass creates candidates for any pass: each pass preserves cleanliness
with respect to every pass kind. -/

mutual
theorem passExpr_pres (pk pk' : PassKind) (scope : Option String) :
    (e : Expr) → (tr : Translations) → cleanExpr pk' scope.isSome e = true →
      cleanExpr pk' scope.isSome (passExpr pk scope e tr).1 = true
  | .identE n, tr, h => h
  | .strLitE s, tr, h => h
  | .memberE o p, tr, h => h
  | .opaqueE s, tr, h => h
  | .callE f args, tr, h => by
      simp only [cleanExpr, Bool.and_eq_true] at h
      simp [passExpr, cleanExpr, passExpr_pres pk pk' scope f tr h.1,
        passExprList_pres pk pk' scope args (passExpr pk scope f tr).2.1 h.2]
  | .objE ps, tr, h => by
      simp only [cleanExpr] at h
      simp [passExpr, cleanExpr, passProps_pres pk pk' scope ps tr h]
  | .tmplE quasis exprs, tr, h => by
      simp only [cleanExpr, Bool.and_eq_true] at h
      cases pk with
      | tmplP =>
          cases scope with
          | some fname =>
              simp only [passExpr]
              exact cleanExpr_tmplReplacement pk' true _ _ _
                (cleanProps_buildTemplateProps pk' true exprs _ 0
                  (passInterpList_pres .tmplP pk' (some fname) exprs _ h.2))
          | none =>
              have hc := passExprList_pres .tmplP pk' none exprs tr h.2
              simp only [Option.isSome_none] at hc
              simp [passExpr, cleanExpr, hc]
      | textP =>
          simp [passExpr, cleanExpr, h.1, passExprList_pres .textP pk' scope exprs tr h.2]
      | attrP =>
          simp [passExpr, cleanExpr, h.1, passExprList_pres .attrP pk' scope exprs tr h.2]
  | .taggedE tag quasis exprs, tr, h => by
      simp only [cleanExpr, Bool.and_eq_true] at h
      simp [passExpr, cleanExpr, passExpr_pres pk pk' scope tag tr h.1,
        passExprList_pres pk pk' scope exprs (passExpr pk scope tag tr).2.1 h.2]
  | .arrowE b, tr, h => by
      simp only [cleanExpr] at h
      have hb := passFnBody_pres pk pk' (some "UnknownFunction") b tr h
      simp only [passExpr, cleanExpr]
      by_cases hs : (passFnBody pk (some "UnknownFunction") b tr).2.2.1 = true
      · simp [hs, cleanFnBody_ensureTranslationHook pk' true _ hb]
      · simp only [Bool.not_eq_true] at hs
        simpa [hs] using hb
  | .jsxE el, tr, h => by
      simp only [cleanExpr] at h
      simp [passExpr, cleanExpr, passElem_pres pk pk' scope el tr h]

theorem passExprList_pres (pk pk' : PassKind) (scope : Option String) :
    (l : ExprList) → (tr : Translations) → cleanExprList pk' scope.isSome l = true →
      cleanExprList pk' scope.isSome (passExprList pk scope l tr).1 = true
  | .nil, tr, h => h
  | .cons e rest, tr, h => by
      simp only [cleanExprList, Bool.and_eq_true] at h
      simp [passExprList, cleanExprList, passExpr_pres pk pk' scope e tr h.1,
        passExprList_pres pk pk' scope rest (passExpr pk scope e tr).2.1 h.2]

theorem passInterpList_pres (pk pk' : PassKind) (scope : Option String) :
    (l : ExprList) → (tr : Translations) → cleanExprList pk' scope.isSome l = true →
      cleanExprList pk' scope.isSome (passInterpList pk scope l tr).1 = true
  | .nil, tr, h => h
  | .cons (.tmplE q es) rest, tr, h => by
      simp only [cleanExprList, cleanExpr, Bool.and_eq_true] at h
      cases pk with
      | tmplP =>
          cases scope with
          | some fname =>
              have hne : ¬ pk' = PassKind.tmplP := by simpa using h.1.1
              simp only [passInterpList]
              generalize upsertTranslations (lowerFirst fname)
                  (createTranslationKey
                    (stripPlaceholders (sanitizeText (buildTemplateText 0 q es))))
                  (sanitizeText (buildTemplateText 0 q es)) tr = tr1
              have hc1 := passExprList_pres .tmplP pk' (some fname) es tr1 h.1.2
              have hc2 := passInterpList_pres .tmplP pk' (some fname) rest
                (passExprList .tmplP (some fname) es tr1).2.1 h.2
              simp only [Option.isSome_some] at hc1 hc2
              simp [cleanExprList, cleanExpr, hne, hc1, hc2]
          | none =>
              have hc1 := passExprList_pres .tmplP pk' none es tr h.1.2
              have hc2 := passInterpList_pres .tmplP pk' none rest
                (passExprList .tmplP none es tr).2.1 h.2
              simp only [Option.isSome_none] at hc1 hc2
              simp [passInterpList, cleanExprList, cleanExpr, hc1, hc2]
      | textP =>
          simp [passInterpList, cleanExprList, cleanExpr, h.1.1,
            passExprList_pres .textP pk' scope es tr h.1.2,
            passInterpList_pres .textP pk' scope rest
              (passExprList .textP scope es tr).2.1 h.2]
      | attrP =>
          simp [passInterpList, cleanExprList, cleanExpr, h.1.1,
            passExprList_pres .attrP pk' scope es tr h.1.2,
            passInterpList_pres .attrP pk' scope rest
              (passExprList .attrP scope es tr).2.1 h.2]
  | .cons (.identE n) rest, tr, h => by
      simp only [cleanExprList, Bool.and_eq_true] at h
      simp [passInterpList, cleanExprList, passExpr_pres pk pk' scope (.identE n) tr h.1,
        passInterpList_pres pk pk' scope rest (passExpr pk scope (.identE n) tr).2.1 h.2]
  | .cons (.strLitE s) rest, tr, h => by
      simp only [cleanExprList, Bool.and_eq_true] at h
      simp [passInterpList, cleanExprList, passExpr_pres pk pk' scope (.strLitE s) tr h.1,
        passInterpList_pres pk pk' scope rest (passExpr pk scope (.strLitE s) tr).2.1 h.2]
  | .cons (.memberE o p) rest, tr, h => by
      simp only [cleanExprList, Bool.and_eq_true] at h
      simp [passInterpList, cleanExprList, passExpr_pres pk pk' scope (.memberE o p) tr h.1,
        passInterpList_pres pk pk' scope rest (passExpr pk scope (.memberE o p) tr).2.1 h.2]
  | .cons (.opaqueE s) rest, tr, h => by
      simp only [cleanExprList, Bool.and_eq_true] at h
      simp [passInterpList, cleanExprList, passExpr_pres pk pk' scope (.opaqueE s) tr h.1,
        passInterpList_pres pk pk' scope rest (passExpr pk scope (.opaqueE s) tr).2.1 h.2]
  | .cons (.callE f args) rest, tr, h => by
      simp only [cleanExprList, Bool.and_eq_true] at h
      simp [passInterpList, cleanExprList, passExpr_pres pk pk' scope (.callE f args) tr h.1,
        passInterpList_pres pk pk' scope rest (passExpr pk scope (.callE f args) tr).2.1 h.2]
  | .cons (.objE ps) rest, tr, h => by
      simp only [cleanExprList, Bool.and_eq_true] at h
      simp [passInterpList, cleanExprList, passExpr_pres pk pk' scope (.objE ps) tr h.1,
        passInterpList_pres pk pk' scope rest (passExpr pk scope (.objE ps) tr).2.1 h.2]
  | .cons (.taggedE tag q es) rest, tr, h => by
      simp only [cleanExprList, Bool.and_eq_true] at h
      simp [passInterpList, cleanExprList,
        passExpr_pres pk pk' scope (.taggedE tag q es) tr h.1,
        passInterpList_pres pk pk' scope rest (passExpr pk scope (.taggedE tag q es) tr).2.1 h.2]
  | .cons (.arrowE b) rest, tr, h => by
      simp only [cleanExprList, Bool.and_eq_true] at h
      simp [passInterpList, cleanExprList, passExpr_pres pk pk' scope (.arrowE b) tr h.1,
        passInterpList_pres pk pk' scope rest (passExpr pk scope (.arrowE b) tr).2.1 h.2]
  | .cons (.jsxE el) rest, tr, h => by
      simp only [cleanExprList, Bool.and_eq_true] at h
      simp [passInterpList, cleanExprList, passExpr_pres pk pk' scope (.jsxE el) tr h.1,
        passInterpList_pres pk pk' scope rest (passExpr pk scope (.jsxE el) tr).2.1 h.2]

theorem passProps_pres (pk pk' : PassKind) (scope : Option String) :
    (l : OPropList) → (tr : Translations) → cleanProps pk' scope.isSome l = true →
      cleanProps pk' scope.isSome (passProps pk scope l tr).1 = true
  | .nil, tr, h => h
  | .cons (.mk k v sh) rest, tr, h => by
      simp only [cleanProps, Bool.and_eq_true] at h
      simp [passProps, cleanProps, passExpr_pres pk pk' scope v tr h.1,
        passProps_pres pk pk' scope rest (passExpr pk scope v tr).2.1 h.2]

theorem passAttr_pres (pk pk' : PassKind) (scope : Option String) :
    (a : JSXAttr) → (tr : Translations) → cleanAttr pk' scope.isSome a = true →
      cleanAttr pk' scope.isSome (passAttr pk scope a tr).1 = true
  | .mk name (.strA s), tr, h => by
      cases pk with
      | attrP =>
          by_cases hallow : name ∈ JSX_ATTRIBUTES_TO_TRANSLATE
          · cases scope with
            | some fname =>
                simp [passAttr, hallow,
                  cleanAttr_exprA pk' true name _ (cleanExpr_tCall pk' true _ _)]
            | none => simpa [passAttr, hallow] using h
          · simpa [passAttr, hallow] using h
      | textP => exact h
      | tmplP => exact h
  | .mk name (.exprA (.tmplE q es)), tr, h => by
      have hch : cleanExprList pk' scope.isSome es = true := by
        cases pk' with
        | tmplP =>
            by_cases hmem : name ∈ TEMPLATE_LITERAL_BLACKLIST
            · simpa [cleanAttr, isTemplateLiteral, hmem] using h
            · have h' : cleanExpr .tmplP scope.isSome (.tmplE q es) = true := by
                simpa [cleanAttr, isTemplateLiteral, hmem] using h
              simp only [cleanExpr, Bool.and_eq_true] at h'
              exact h'.2
        | textP =>
            have h' : cleanExpr .textP scope.isSome (.tmplE q es) = true := by
              simpa [cleanAttr] using h
            simp only [cleanExpr, Bool.and_eq_true] at h'
            exact h'.2
        | attrP =>
            have h' : cleanExpr .attrP scope.isSome (.tmplE q es) = true := by
              simpa [cleanAttr] using h
            simp only [cleanExpr, Bool.and_eq_true] at h'
            exact h'.2
      have hrec := passExprList_pres pk pk' scope es tr hch
      have hout : cleanAttr pk' scope.isSome
          (.mk name (.exprA (.tmplE q (passExprList pk scope es tr).1))) = true := by
        cases pk' with
        | tmplP =>
            by_cases hmem : name ∈ TEMPLATE_LITERAL_BLACKLIST
            · simp [cleanAttr, isTemplateLiteral, hmem, hrec]
            · have h' : cleanExpr .tmplP scope.isSome (.tmplE q es) = true := by
                simpa [cleanAttr, isTemplateLiteral, hmem] using h
              simp only [cleanExpr, Bool.and_eq_true] at h'
              have hs : scope.isSome = false := by
                rcases h' with ⟨h1, _⟩
                simpa using h1
              rw [hs] at hrec
              simp [cleanAttr, isTemplateLiteral, hmem, cleanExpr, hs, hrec]
        | textP => simp [cleanAttr, cleanExpr, hrec]
        | attrP => simp [cleanAttr, cleanExpr, hrec]
      cases pk with
      | tmplP =>
          by_cases hmem : name ∈ TEMPLATE_LITERAL_BLACKLIST
          · simpa [passAttr, isTemplateLiteral, hmem] using hout
          · have hfull : cleanExpr pk' scope.isSome (.tmplE q es) = true := by
              cases pk' with
              | tmplP => simpa [cleanAttr, isTemplateLiteral, hmem] using h
              | textP => simpa [cleanAttr] using h
              | attrP => simpa [cleanAttr] using h
            have hca := cleanAttr_exprA pk' scope.isSome name _
              (passExpr_pres .tmplP pk' scope (.tmplE q es) tr hfull)
            simpa [passAttr, isTemplateLiteral, hmem] using hca
      | textP => cases scope <;> simpa [passAttr, passExpr] using hout
      | attrP => cases scope <;> simpa [passAttr, passExpr] using hout
  | .mk name (.exprA (.identE n)), tr, h => by
      have hfull : cleanExpr pk' scope.isSome (.identE n) = true := by
        cases pk' <;> simpa [cleanAttr, isTemplateLiteral] using h
      have hca := cleanAttr_exprA pk' scope.isSome name _
        (passExpr_pres pk pk' scope (.identE n) tr hfull)
      cases pk <;> simpa [passAttr, isTemplateLiteral] using hca
  | .mk name (.exprA (.strLitE s)), tr, h => by
      have hfull : cleanExpr pk' scope.isSome (.strLitE s) = true := by
        cases pk' <;> simpa [cleanAttr, isTemplateLiteral] using h
      have hca := cleanAttr_exprA pk' scope.isSome name _
        (passExpr_pres pk pk' scope (.strLitE s) tr hfull)
      cases pk <;> simpa [passAttr, isTemplateLiteral] using hca
  | .mk name (.exprA (.memberE o p)), tr, h => by
      have hfull : cleanExpr pk' scope.isSome (.memberE o p) = true := by
        cases pk' <;> simpa [cleanAttr, isTemplateLiteral] using h
      have hca := cleanAttr_exprA pk' scope.isSome name _
        (passExpr_pres pk pk' scope (.memberE o p) tr hfull)
      cases pk <;> simpa [passAttr, isTemplateLiteral] using hca
  | .mk name (.exprA (.opaqueE s)), tr, h => by
      have hfull : cleanExpr pk' scope.isSome (.opaqueE s) = true := by
        cases pk' <;> simpa [cleanAttr, isTemplateLiteral] using h
      have hca := cleanAttr_exprA pk' scope.isSome name _
        (passExpr_pres pk pk' scope (.opaqueE s) tr hfull)
      cases pk <;> simpa [passAttr, isTemplateLiteral] using hca
  | .mk name (.exprA (.callE f args)), tr, h => by
      have hfull : cleanExpr pk' scope.isSome (.callE f args) = true := by
        cases pk' <;> simpa [cleanAttr, isTemplateLiteral] using h
      have hca := cleanAttr_exprA pk' scope.isSome name _
        (passExpr_pres pk pk' scope (.callE f args) tr hfull)
      cases pk <;> simpa [passAttr, isTemplateLiteral] using hca
  | .mk name (.exprA (.objE ps)), tr, h => by
      have hfull : cleanExpr pk' scope.isSome (.objE ps) = true := by
        cases pk' <;> simpa [cleanAttr, isTemplateLiteral] using h
      have hca := cleanAttr_exprA pk' scope.isSome name _
        (passExpr_pres pk pk' scope (.objE ps) tr hfull)
      cases pk <;> simpa [passAttr, isTemplateLiteral] using hca
  | .mk name (.exprA (.taggedE tag q es)), tr, h => by
      have hfull : cleanExpr pk' scope.isSome (.taggedE tag q es) = true := by
        cases pk' <;> simpa [cleanAttr, isTemplateLiteral] using h
      have hca := cleanAttr_exprA pk' scope.isSome name _
        (passExpr_pres pk pk' scope (.taggedE tag q es) tr hfull)
      cases pk <;> simpa [passAttr, isTemplateLiteral] using hca
  | .mk name (.exprA (.arrowE b)), tr, h => by
      have hfull : cleanExpr pk' scope.isSome (.arrowE b) = true := by
        cases pk' <;> simpa [cleanAttr, isTemplateLiteral] using h
      have hca := cleanAttr_exprA pk' scope.isSome name _
        (passExpr_pres pk pk' scope (.arrowE b) tr hfull)
      cases pk <;> simpa [passAttr, isTemplateLiteral] using hca
  | .mk name (.exprA (.jsxE el)), tr, h => by
      have hfull : cleanExpr pk' scope.isSome (.jsxE el) = true := by
        cases pk' <;> simpa [cleanAttr, isTemplateLiteral] using h
      have hca := cleanAttr_exprA pk' scope.isSome name _
        (passExpr_pres pk pk' scope (.jsxE el) tr hfull)
      cases pk <;> simpa [passAttr, isTemplateLiteral] using hca
  | .mk name .noneA, tr, h => by
      cases pk <;> exact h

theorem passAttrs_pres (pk pk' : PassKind) (scope : Option String) :
    (l : JSXAttrList) → (tr : Translations) → cleanAttrs pk' scope.isSome l = true →
      cleanAttrs pk' scope.isSome (passAttrs pk scope l tr).1 = true
  | .nil, tr, h => h
  | .cons a rest, tr, h => by
      simp only [cleanAttrs, Bool.and_eq_true] at h
      simp [passAttrs, cleanAttrs, passAttr_pres pk pk' scope a tr h.1,
        passAttrs_pres pk pk' scope rest (passAttr pk scope a tr).2.1 h.2]

theorem passChild_pres (pk pk' : PassKind) (scope : Option String) :
    (c : JSXChild) → (tr : Translations) → cleanChild pk' scope.isSome c = true →
      cleanChild pk' scope.isSome (passChild pk scope c tr).1 = true
  | .textC s, tr, h => by
      cases pk with
      | textP =>
          cases scope with
          | some fname =>
              by_cases hbl : jsTrim s ∈ TRANSLATION_BLACKLIST
              · simpa [passChild, hbl] using h
              · simp only [passChild]
                have : cleanChild pk' true (.exprC (tCall (lowerFirst fname)
                    (createTranslationKey (sanitizeText s)))) = true := by
                  simp [cleanChild, cleanExpr_tCall]
                simpa [hbl] using this
          | none => exact h
      | attrP => cases scope <;> exact h
      | tmplP => cases scope <;> exact h
  | .exprC e, tr, h => by
      simp only [cleanChild] at h
      simp [passChild, cleanChild, passExpr_pres pk pk' scope e tr h]
  | .elemC el, tr, h => by
      simp only [cleanChild] at h
      simp [passChild, cleanChild, passElem_pres pk pk' scope el tr h]

theorem passChildren_pres (pk pk' : PassKind) (scope : Option String) :
    (l : JSXChildList) → (tr : Translations) → cleanChildren pk' scope.isSome l = true →
      cleanChildren pk' scope.isSome (passChildren pk scope l tr).1 = true
  | .nil, tr, h => h
  | .cons c rest, tr, h => by
      simp only [cleanChildren, Bool.and_eq_true] at h
      simp [passChildren, cleanChildren, passChild_pres pk pk' scope c tr h.1,
        passChildren_pres pk pk' scope rest (passChild pk scope c tr).2.1 h.2]

theorem passElem_pres (pk pk' : PassKind) (scope : Option String) :
    (el : JSXElem) → (tr : Translations) → cleanElem pk' scope.isSome el = true →
      cleanElem pk' scope.isSome (passElem pk scope el tr).1 = true
  | .mk attrs children, tr, h => by
      simp only [cleanElem, Bool.and_eq_true] at h
      simp [passElem, cleanElem, passAttrs_pres pk pk' scope attrs tr h.1,
        passChildren_pres pk pk' scope children (passAttrs pk scope attrs tr).2.1 h.2]

theorem passFnBody_pres (pk pk' : PassKind) (scope : Option String) :
    (b : FnBody) → (tr : Translations) → cleanFnBody pk' scope.isSome b = true →
      cleanFnBody pk' scope.isSome (passFnBody pk scope b tr).1 = true
  | .block ss, tr, h => by
      simp only [cleanFnBody] at h
      simp [passFnBody, cleanFnBody, passStmts_pres pk pk' scope ss tr h]
  | .exprB e, tr, h => by
      simp only [cleanFnBody] at h
      simp [passFnBody, cleanFnBody, passExpr_pres pk pk' scope e tr h]

theorem passStmt_pres (pk pk' : PassKind) (scope : Option String) :
    (s : Stmt) → (tr : Translations) → cleanStmt pk' scope.isSome s = true →
      cleanStmt pk' scope.isSome (passStmt pk scope s tr).1 = true
  | .importS sp src, tr, h => h
  | .funcDeclS name b, tr, h => by
      have h' : cleanFnBody pk' true b = true := by simpa [cleanStmt] using h
      have hb := passFnBody_pres pk pk' (some (name.getD "UnknownFunction")) b tr h'
      simp only [passStmt, cleanStmt]
      by_cases hs : (passFnBody pk (some (name.getD "UnknownFunction")) b tr).2.2.1 = true
      · simp [hs, cleanFnBody_ensureTranslationHook pk' true _ hb]
      · simp only [Bool.not_eq_true] at hs
        simpa [hs] using hb
  | .varDeclS pat (.arrowE b), tr, h => by
      have h' : cleanFnBody pk' true b = true := by simpa [cleanStmt] using h
      cases pat with
      | idPat n =>
          have hb := passFnBody_pres pk pk' (some n) b tr h'
          simp only [passStmt, cleanStmt]
          by_cases hs : (passFnBody pk (some n) b tr).2.2.1 = true
          · simp [hs, cleanFnBody_ensureTranslationHook pk' true _ hb]
          · simp only [Bool.not_eq_true] at hs
            simpa [hs] using hb
      | objPat ns =>
          have hb := passFnBody_pres pk pk' (some "UnknownFunction") b tr h'
          simp only [passStmt, cleanStmt]
          by_cases hs : (passFnBody pk (some "UnknownFunction") b tr).2.2.1 = true
          · simp [hs, cleanFnBody_ensureTranslationHook pk' true _ hb]
          · simp only [Bool.not_eq_true] at hs
            simpa [hs] using hb
  | .varDeclS pat (.identE n), tr, h => h
  | .varDeclS pat (.strLitE s), tr, h => h
  | .varDeclS pat (.memberE o p), tr, h => h
  | .varDeclS pat (.opaqueE s), tr, h => h
  | .varDeclS pat (.callE f args), tr, h => by
      have h' : cleanExpr pk' scope.isSome (.callE f args) = true := by
        simpa [cleanStmt] using h
      have hout := passExpr_pres pk pk' scope (.callE f args) tr h'
      simp only [passExpr] at hout ⊢
      simpa [passStmt, cleanStmt] using hout
  | .varDeclS pat (.objE ps), tr, h => by
      have h' : cleanExpr pk' scope.isSome (.objE ps) = true := by
        simpa [cleanStmt] using h
      have hout := passExpr_pres pk pk' scope (.objE ps) tr h'
      simp only [passExpr] at hout ⊢
      simpa [passStmt, cleanStmt] using hout
  | .varDeclS pat (.tmplE q es), tr, h => by
      have h' : cleanExpr pk' scope.isSome (.tmplE q es) = true := by
        simpa [cleanStmt] using h
      simp only [cleanExpr, Bool.and_eq_true] at h'
      cases pk with
      | tmplP =>
          cases scope with
          | some fname =>
              simp only [passStmt, passExpr, cleanStmt]
              exact cleanExpr_tmplReplacement pk' true _ _ _
                (cleanProps_buildTemplateProps pk' true es _ 0
                  (passInterpList_pres .tmplP pk' (some fname) es _ h'.2))
          | none =>
              have hc := passExprList_pres .tmplP pk' none es tr h'.2
              simp only [Option.isSome_none] at hc
              simp [passStmt, passExpr, cleanStmt, cleanExpr, hc]
      | textP =>
          simp [passStmt, passExpr, cleanStmt, cleanExpr, h'.1,
            passExprList_pres .textP pk' scope es tr h'.2]
      | attrP =>
          simp [passStmt, passExpr, cleanStmt, cleanExpr, h'.1,
            passExprList_pres .attrP pk' scope es tr h'.2]
  | .varDeclS pat (.taggedE tag q es), tr, h => by
      have h' : cleanExpr pk' scope.isSome (.taggedE tag q es) = true := by
        simpa [cleanStmt] using h
      have hout := passExpr_pres pk pk' scope (.taggedE tag q es) tr h'
      simp only [passExpr] at hout ⊢
      simpa [passStmt, cleanStmt] using hout
  | .varDeclS pat (.jsxE el), tr, h => by
      have h' : cleanExpr pk' scope.isSome (.jsxE el) = true := by
        simpa [cleanStmt] using h
      have hout := passExpr_pres pk pk' scope (.jsxE el) tr h'
      simp only [passExpr] at hout ⊢
      simpa [passStmt, cleanStmt] using hout
  | .returnS e, tr, h => by
      have h' : cleanExpr pk' scope.isSome e = true := by simpa [cleanStmt] using h
      simp [passStmt, cleanStmt, passExpr_pres pk pk' scope e tr h']
  | .exprStmtS e, tr, h => by
      have h' : cleanExpr pk' scope.isSome e = true := by simpa [cleanStmt] using h
      simp [passStmt, cleanStmt, passExpr_pres pk pk' scope e tr h']
  | .otherStmtS, tr, h => h

theorem passStmts_pres (pk pk' : PassKind) (scope : Option String) :
    (l : StmtList) → (tr : Translations) → cleanStmts pk' scope.isSome l = true →
      cleanStmts pk' scope.isSome (passStmts pk scope l tr).1 = true
  | .nil, tr, h => h
  | .cons s rest, tr, h => by
      simp only [cleanStmts, Bool.and_eq_true] at h
      simp [passStmts, cleanStmts, passStmt_pres pk pk' scope s tr h.1,
        passStmts_pres pk pk' scope rest (passStmt pk scope s tr).2.1 h.2]
end

/-! Nesting-freeness of the replacement material, and its preservation by the
setup injectors. -/

theorem noNestedExpr_tCall (c k : String) : noNestedExpr (tCall c k) = true := by
  simp [tCall, noNestedExpr, noNestedExprList]

theorem noNestedStmt_translationHook : noNestedStmt translationHook = true := by
  simp [translationHook, noNestedStmt, noNestedExpr, noNestedExprList]

theorem noNestedFnBody_ensureTranslationHook (b : FnBody) (h : noNestedFnBody b = true) :
    noNestedFnBody (ensureTranslationHook b) = true := by
  by_cases hc : containsUTFnBody b = true
  · simpa [ensureTranslationHook, hc] using h
  · simp only [Bool.not_eq_true] at hc
    match b, h with
    | .block ss, h =>
        have h' : noNestedStmts ss = true := by simpa [noNestedFnBody] using h
        simp [ensureTranslationHook, hc, noNestedFnBody, noNestedStmts,
          noNestedStmt_translationHook, h']
    | .exprB e, h =>
        have h' : noNestedExpr e = true := by simpa [noNestedFnBody] using h
        simp [ensureTranslationHook, hc, noNestedFnBody, noNestedStmts, noNestedStmt,
          translationHook, noNestedExpr, noNestedExprList, h']

theorem noNestedStmts_insertBeforeFirstImport (sp : List String) (p : String) :
    (ss : StmtList) → noNestedStmts ss = true →
      noNestedStmts (insertBeforeFirstImport (.importS sp p) ss) = true
  | .nil, _ => rfl
  | .cons (.importS a b) rest, h => by
      simpa [insertBeforeFirstImport, noNestedStmts, noNestedStmt] using h
  | .cons (.funcDeclS n b) rest, h => by
      simp only [noNestedStmts, Bool.and_eq_true] at h
      simp [insertBeforeFirstImport, noNestedStmts, h.1,
        noNestedStmts_insertBeforeFirstImport sp p rest h.2]
  | .cons (.varDeclS pa i) rest, h => by
      simp only [noNestedStmts, Bool.and_eq_true] at h
      simp [insertBeforeFirstImport, noNestedStmts, h.1,
        noNestedStmts_insertBeforeFirstImport sp p rest h.2]
  | .cons (.returnS e) rest, h => by
      simp only [noNestedStmts, Bool.and_eq_true] at h
      simp [insertBeforeFirstImport, noNestedStmts, h.1,
        noNestedStmts_insertBeforeFirstImport sp p rest h.2]
  | .cons (.exprStmtS e) rest, h => by
      simp only [noNestedStmts, Bool.and_eq_true] at h
      simp [insertBeforeFirstImport, noNestedStmts, h.1,
        noNestedStmts_insertBeforeFirstImport sp p rest h.2]
  | .cons .otherStmtS rest, h => by
      simp only [noNestedStmts, Bool.and_eq_true] at h
      simp [insertBeforeFirstImport, noNestedStmts, h.1,
        noNestedStmts_insertBeforeFirstImport sp p rest h.2]

theorem noNestedStmts_ensureTranslationImport (pkg : String) (ss : StmtList)
    (h : noNestedStmts ss = true) :
    noNestedStmts (ensureTranslationImport pkg ss) = true := by
  by_cases hh : hasTranslationImport pkg ss = true
  · simpa [ensureTranslationImport, hh] using h
  · simp only [Bool.not_eq_true] at hh
    simp [ensureTranslationImport, hh,
      noNestedStmts_insertBeforeFirstImport ["useTranslation"] pkg ss h]

theorem noNestedExpr_tmplReplacement (c k : String) (props : OPropList)
    (hp : noNestedProps props = true) :
    noNestedExpr (tmplReplacement c k props) = true := by
  match props, hp with
  | .nil, _ => simp [tmplReplacement, noNestedExpr, noNestedExprList]
  | .cons p ps, hp =>
      simp [tmplReplacement, noNestedExpr, noNestedExprList, hp]

theorem noNestedProps_buildTemplateProps :
    (orig vals : ExprList) → (i : Nat) → noNestedExprList vals = true →
      noNestedProps (buildTemplateProps i orig vals) = true
  | .nil, _, _, _ => rfl
  | .cons _ _, .nil, _, _ => rfl
  | .cons e rest, .cons e' rest', i, h => by
      simp only [noNestedExprList, Bool.and_eq_true] at h
      simp [buildTemplateProps, noNestedProps, h.1,
        noNestedProps_buildTemplateProps rest rest' (i + 1) h.2]

/-! No pass introduces a template literal directly into an interpolation slot:
every pass preserves nesting-freeness. (A pass never turns a non-template
expression into a template literal, and replacement material contains no
template.) -/

mutual
theorem passExpr_noNested (pk : PassKind) (scope : Option String) :
    (e : Expr) → (tr : Translations) → noNestedExpr e = true →
      noNestedExpr (passExpr pk scope e tr).1 = true
  | .identE n, tr, _ => rfl
  | .strLitE s, tr, _ => rfl
  | .memberE o p, tr, _ => rfl
  | .opaqueE s, tr, _ => rfl
  | .callE f args, tr, h => by
      simp only [noNestedExpr, Bool.and_eq_true] at h
      simp [passExpr, noNestedExpr, passExpr_noNested pk scope f tr h.1,
        passExprList_noNested pk scope args (passExpr pk scope f tr).2.1 h.2]
  | .objE ps, tr, h => by
      simp only [noNestedExpr] at h
      simp [passExpr, noNestedExpr, passProps_noNested pk scope ps tr h]
  | .tmplE quasis exprs, tr, h => by
      have hi : noNestedInterps exprs = true := by simpa [noNestedExpr] using h
      cases pk with
      | tmplP =>
          cases scope with
          | some fname =>
              simp only [passExpr]
              exact noNestedExpr_tmplReplacement _ _ _
                (noNestedProps_buildTemplateProps exprs _ 0
                  (passInterpList_noNested .tmplP (some fname) exprs _ hi))
          | none =>
              simp [passExpr, noNestedExpr,
                passExprList_noNestedInterps .tmplP none exprs tr hi]
      | textP =>
          simp [passExpr, noNestedExpr, passExprList_noNestedInterps .textP scope exprs tr hi]
      | attrP =>
          simp [passExpr, noNestedExpr, passExprList_noNestedInterps .attrP scope exprs tr hi]
  | .taggedE tag quasis exprs, tr, h => by
      simp only [noNestedExpr, Bool.and_eq_true] at h
      simp [passExpr, noNestedExpr, passExpr_noNested pk scope tag tr h.1,
        passExprList_noNestedInterps pk scope exprs (passExpr pk scope tag tr).2.1 h.2]
  | .arrowE b, tr, h => by
      simp only [noNestedExpr] at h
      have hb := passFnBody_noNested pk (some "UnknownFunction") b tr h
      simp only [passExpr, noNestedExpr]
      by_cases hs : (passFnBody pk (some "UnknownFunction") b tr).2.2.1 = true
      · simp [hs, noNestedFnBody_ensureTranslationHook _ hb]
      · simp only [Bool.not_eq_true] at hs
        simpa [hs] using hb
  | .jsxE el, tr, h => by
      simp only [noNestedExpr] at h
      simp [passExpr, noNestedExpr, passElem_noNested pk scope el tr h]

theorem passExprList_noNested (pk : PassKind) (scope : Option String) :
    (l : ExprList) → (tr : Translations) → noNestedExprList l = true →
      noNestedExprList (passExprList pk scope l tr).1 = true
  | .nil, tr, _ => rfl
  | .cons e rest, tr, h => by
      simp only [noNestedExprList, Bool.and_eq_true] at h
      simp [passExprList, noNestedExprList, passExpr_noNested pk scope e tr h.1,
        passExprList_noNested pk scope rest (passExpr pk scope e tr).2.1 h.2]

theorem passExprList_noNestedInterps (pk : PassKind) (scope : Option String) :
    (l : ExprList) → (tr : Translations) → noNestedInterps l = true →
      noNestedInterps (passExprList pk scope l tr).1 = true
  | .nil, tr, _ => rfl
  | .cons (.tmplE q es) rest, tr, h => by
      simp [noNestedInterps, isTemplateLiteral] at h
  | .cons (.identE n) rest, tr, h => by
      simp only [noNestedInterps, Bool.and_eq_true] at h
      have hshape : isTemplateLiteral (passExpr pk scope (.identE n) tr).1 = false := by
        simp [passExpr, isTemplateLiteral]
      simp [passExprList, noNestedInterps, hshape,
        passExpr_noNested pk scope (.identE n) tr h.1.2,
        passExprList_noNestedInterps pk scope rest (passExpr pk scope (.identE n) tr).2.1 h.2]
  | .cons (.strLitE s) rest, tr, h => by
      simp only [noNestedInterps, Bool.and_eq_true] at h
      have hshape : isTemplateLiteral (passExpr pk scope (.strLitE s) tr).1 = false := by
        simp [passExpr, isTemplateLiteral]
      simp [passExprList, noNestedInterps, hshape,
        passExpr_noNested pk scope (.strLitE s) tr h.1.2,
        passExprList_noNestedInterps pk scope rest (passExpr pk scope (.strLitE s) tr).2.1 h.2]
  | .cons (.memberE o p) rest, tr, h => by
      simp only [noNestedInterps, Bool.and_eq_true] at h
      have hshape : isTemplateLiteral (passExpr pk scope (.memberE o p) tr).1 = false := by
        simp [passExpr, isTemplateLiteral]
      simp [passExprList, noNestedInterps, hshape,
        passExpr_noNested pk scope (.memberE o p) tr h.1.2,
        passExprList_noNestedInterps pk scope rest (passExpr pk scope (.memberE o p) tr).2.1 h.2]
  | .cons (.opaqueE s) rest, tr, h => by
      simp only [noNestedInterps, Bool.and_eq_true] at h
      have hshape : isTemplateLiteral (passExpr pk scope (.opaqueE s) tr).1 = false := by
        simp [passExpr, isTemplateLiteral]
      simp [passExprList, noNestedInterps, hshape,
        passExpr_noNested pk scope (.opaqueE s) tr h.1.2,
        passExprList_noNestedInterps pk scope rest (passExpr pk scope (.opaqueE s) tr).2.1 h.2]
  | .cons (.callE f args) rest, tr, h => by
      simp only [noNestedInterps, Bool.and_eq_true] at h
      have hshape : isTemplateLiteral (passExpr pk scope (.callE f args) tr).1 = false := by
        simp [passExpr, isTemplateLiteral]
      simp [passExprList, noNestedInterps, hshape,
        passExpr_noNested pk scope (.callE f args) tr h.1.2,
        passExprList_noNestedInterps pk scope rest
          (passExpr pk scope (.callE f args) tr).2.1 h.2]
  | .cons (.objE ps) rest, tr, h => by
      simp only [noNestedInterps, Bool.and_eq_true] at h
      have hshape : isTemplateLiteral (passExpr pk scope (.objE ps) tr).1 = false := by
        simp [passExpr, isTemplateLiteral]
      simp [passExprList, noNestedInterps, hshape,
        passExpr_noNested pk scope (.objE ps) tr h.1.2,
        passExprList_noNestedInterps pk scope rest (passExpr pk scope (.objE ps) tr).2.1 h.2]
  | .cons (.taggedE tag q es) rest, tr, h => by
      simp only [noNestedInterps, Bool.and_eq_true] at h
      have hshape : isTemplateLiteral (passExpr pk scope (.taggedE tag q es) tr).1 = false := by
        simp [passExpr, isTemplateLiteral]
      simp [passExprList, noNestedInterps, hshape,
        passExpr_noNested pk scope (.taggedE tag q es) tr h.1.2,
        passExprList_noNestedInterps pk scope rest
          (passExpr pk scope (.taggedE tag q es) tr).2.1 h.2]
  | .cons (.arrowE b) rest, tr, h => by
      simp only [noNestedInterps, Bool.and_eq_true] at h
      have hshape : isTemplateLiteral (passExpr pk scope (.arrowE b) tr).1 = false := by
        simp [passExpr, isTemplateLiteral]
      simp [passExprList, noNestedInterps, hshape,
        passExpr_noNested pk scope (.arrowE b) tr h.1.2,
        passExprList_noNestedInterps pk scope rest (passExpr pk scope (.arrowE b) tr).2.1 h.2]
  | .cons (.jsxE el) rest, tr, h => by
      simp only [noNestedInterps, Bool.and_eq_true] at h
      have hshape : isTemplateLiteral (passExpr pk scope (.jsxE el) tr).1 = false := by
        simp [passExpr, isTemplateLiteral]
      simp [passExprList, noNestedInterps, hshape,
        passExpr_noNested pk scope (.jsxE el) tr h.1.2,
        passExprList_noNestedInterps pk scope rest (passExpr pk scope (.jsxE el) tr).2.1 h.2]

theorem passInterpList_noNested (pk : PassKind) (scope : Option String) :
    (l : ExprList) → (tr : Translations) → noNestedInterps l = true →
      noNestedExprList (passInterpList pk scope l tr).1 = true
  | .nil, tr, _ => rfl
  | .cons (.tmplE q es) rest, tr, h => by
      simp [noNestedInterps, isTemplateLiteral] at h
  | .cons (.identE n) rest, tr, h => by
      simp only [noNestedInterps, Bool.and_eq_true] at h
      simp [passInterpList, noNestedExprList, passExpr_noNested pk scope (.identE n) tr h.1.2,
        passInterpList_noNested pk scope rest (passExpr pk scope (.identE n) tr).2.1 h.2]
  | .cons (.strLitE s) rest, tr, h => by
      simp only [noNestedInterps, Bool.and_eq_true] at h
      simp [passInterpList, noNestedExprList, passExpr_noNested pk scope (.strLitE s) tr h.1.2,
        passInterpList_noNested pk scope rest (passExpr pk scope (.strLitE s) tr).2.1 h.2]
  | .cons (.memberE o p) rest, tr, h => by
      simp only [noNestedInterps, Bool.and_eq_true] at h
      simp [passInterpList, noNestedExprList, passExpr_noNested pk scope (.memberE o p) tr h.1.2,
        passInterpList_noNested pk scope rest (passExpr pk scope (.memberE o p) tr).2.1 h.2]
  | .cons (.opaqueE s) rest, tr, h => by
      simp only [noNestedInterps, Bool.and_eq_true] at h
      simp [passInterpList, noNestedExprList, passExpr_noNested pk scope (.opaqueE s) tr h.1.2,
        passInterpList_noNested pk scope rest (passExpr pk scope (.opaqueE s) tr).2.1 h.2]
  | .cons (.callE f args) rest, tr, h => by
      simp only [noNestedInterps, Bool.and_eq_true] at h
      simp [passInterpList, noNestedExprList,
        passExpr_noNested pk scope (.callE f args) tr h.1.2,
        passInterpList_noNested pk scope rest (passExpr pk scope (.callE f args) tr).2.1 h.2]
  | .cons (.objE ps) rest, tr, h => by
      simp only [noNestedInterps, Bool.and_eq_true] at h
      simp [passInterpList, noNestedExprList, passExpr_noNested pk scope (.objE ps) tr h.1.2,
        passInterpList_noNested pk scope rest (passExpr pk scope (.objE ps) tr).2.1 h.2]
  | .cons (.taggedE tag q es) rest, tr, h => by
      simp only [noNestedInterps, Bool.and_eq_true] at h
      simp [passInterpList, noNestedExprList,
        passExpr_noNested pk scope (.taggedE tag q es) tr h.1.2,
        passInterpList_noNested pk scope rest
          (passExpr pk scope (.taggedE tag q es) tr).2.1 h.2]
  | .cons (.arrowE b) rest, tr, h => by
      simp only [noNestedInterps, Bool.and_eq_true] at h
      simp [passInterpList, noNestedExprList, passExpr_noNested pk scope (.arrowE b) tr h.1.2,
        passInterpList_noNested pk scope rest (passExpr pk scope (.arrowE b) tr).2.1 h.2]
  | .cons (.jsxE el) rest, tr, h => by
      simp only [noNestedInterps, Bool.and_eq_true] at h
      simp [passInterpList, noNestedExprList, passExpr_noNested pk scope (.jsxE el) tr h.1.2,
        passInterpList_noNested pk scope rest (passExpr pk scope (.jsxE el) tr).2.1 h.2]

theorem passProps_noNested (pk : PassKind) (scope : Option String) :
    (l : OPropList) → (tr : Translations) → noNestedProps l = true →
      noNestedProps (passProps pk scope l tr).1 = true
  | .nil, tr, _ => rfl
  | .cons (.mk k v sh) rest, tr, h => by
      simp only [noNestedProps, Bool.and_eq_true] at h
      simp [passProps, noNestedProps, passExpr_noNested pk scope v tr h.1,
        passProps_noNested pk scope rest (passExpr pk scope v tr).2.1 h.2]

theorem passAttr_noNested (pk : PassKind) (scope : Option String) :
    (a : JSXAttr) → (tr : Translations) → noNestedAttr a = true →
      noNestedAttr (passAttr pk scope a tr).1 = true
  | .mk name (.strA s), tr, _ => by
      cases pk with
      | attrP =>
          by_cases hallow : name ∈ JSX_ATTRIBUTES_TO_TRANSLATE
          · cases scope with
            | some fname => simp [passAttr, hallow, noNestedAttr, noNestedExpr_tCall]
            | none => simp [passAttr, hallow, noNestedAttr]
          · simp [passAttr, hallow, noNestedAttr]
      | textP => rfl
      | tmplP => rfl
  | .mk name (.exprA (.tmplE q es)), tr, h => by
      have he : noNestedExpr (.tmplE q es) = true := by simpa [noNestedAttr] using h
      have hi : noNestedInterps es = true := by simpa [noNestedExpr] using he
      have hrec := passExprList_noNestedInterps pk scope es tr hi
      have hexp := passExpr_noNested pk scope (.tmplE q es) tr he
      cases pk with
      | tmplP =>
          by_cases hmem : name ∈ TEMPLATE_LITERAL_BLACKLIST
          · simp [passAttr, isTemplateLiteral, hmem, noNestedAttr, noNestedExpr, hrec]
          · simp [passAttr, isTemplateLiteral, hmem, noNestedAttr, hexp]
      | textP => simp [passAttr, noNestedAttr, hexp]
      | attrP => simp [passAttr, noNestedAttr, hexp]
  | .mk name (.exprA (.identE n)), tr, h => by
      have he : noNestedExpr (.identE n) = true := by simpa [noNestedAttr] using h
      have hexp := passExpr_noNested pk scope (.identE n) tr he
      cases pk <;> simp [passAttr, isTemplateLiteral, noNestedAttr, hexp]
  | .mk name (.exprA (.strLitE s)), tr, h => by
      have he : noNestedExpr (.strLitE s) = true := by simpa [noNestedAttr] using h
      have hexp := passExpr_noNested pk scope (.strLitE s) tr he
      cases pk <;> simp [passAttr, isTemplateLiteral, noNestedAttr, hexp]
  | .mk name (.exprA (.memberE o p)), tr, h => by
      have he : noNestedExpr (.memberE o p) = true := by simpa [noNestedAttr] using h
      have hexp := passExpr_noNested pk scope (.memberE o p) tr he
      cases pk <;> simp [passAttr, isTemplateLiteral, noNestedAttr, hexp]
  | .mk name (.exprA (.opaqueE s)), tr, h => by
      have he : noNestedExpr (.opaqueE s) = true := by simpa [noNestedAttr] using h
      have hexp := passExpr_noNested pk scope (.opaqueE s) tr he
      cases pk <;> simp [passAttr, isTemplateLiteral, noNestedAttr, hexp]
  | .mk name (.exprA (.callE f args)), tr, h => by
      have he : noNestedExpr (.callE f args) = true := by simpa [noNestedAttr] using h
      have hexp := passExpr_noNested pk scope (.callE f args) tr he
      cases pk <;> simp [passAttr, isTemplateLiteral, noNestedAttr, hexp]
  | .mk name (.exprA (.objE ps)), tr, h => by
      have he : noNestedExpr (.objE ps) = true := by simpa [noNestedAttr] using h
      have hexp := passExpr_noNested pk scope (.objE ps) tr he
      cases pk <;> simp [passAttr, isTemplateLiteral, noNestedAttr, hexp]
  | .mk name (.exprA (.taggedE tag q es)), tr, h => by
      have he : noNestedExpr (.taggedE tag q es) = true := by simpa [noNestedAttr] using h
      have hexp := passExpr_noNested pk scope (.taggedE tag q es) tr he
      cases pk <;> simp [passAttr, isTemplateLiteral, noNestedAttr, hexp]
  | .mk name (.exprA (.arrowE b)), tr, h => by
      have he : noNestedExpr (.arrowE b) = true := by simpa [noNestedAttr] using h
      have hexp := passExpr_noNested pk scope (.arrowE b) tr he
      cases pk <;> simp [passAttr, isTemplateLiteral, noNestedAttr, hexp]
  | .mk name (.exprA (.jsxE el)), tr, h => by
      have he : noNestedExpr (.jsxE el) = true := by simpa [noNestedAttr] using h
      have hexp := passExpr_noNested pk scope (.jsxE el) tr he
      cases pk <;> simp [passAttr, isTemplateLiteral, noNestedAttr, hexp]
  | .mk name .noneA, tr, _ => by cases pk <;> rfl

theorem passAttrs_noNested (pk : PassKind) (scope : Option String) :
    (l : JSXAttrList) → (tr : Translations) → noNestedAttrs l = true →
      noNestedAttrs (passAttrs pk scope l tr).1 = true
  | .nil, tr, _ => rfl
  | .cons a rest, tr, h => by
      simp only [noNestedAttrs, Bool.and_eq_true] at h
      simp [passAttrs, noNestedAttrs, passAttr_noNested pk scope a tr h.1,
        passAttrs_noNested pk scope rest (passAttr pk scope a tr).2.1 h.2]

theorem passChild_noNested (pk : PassKind) (scope : Option String) :
    (c : JSXChild) → (tr : Translations) → noNestedChild c = true →
      noNestedChild (passChild pk scope c tr).1 = true
  | .textC s, tr, _ => by
      cases pk with
      | textP =>
          cases scope with
          | some fname =>
              by_cases hbl : jsTrim s ∈ TRANSLATION_BLACKLIST
              · simp [passChild, hbl, noNestedChild]
              · simp [passChild, hbl, noNestedChild, noNestedExpr_tCall]
          | none => rfl
      | attrP => cases scope <;> rfl
      | tmplP => cases scope <;> rfl
  | .exprC e, tr, h => by
      simp only [noNestedChild] at h
      simp [passChild, noNestedChild, passExpr_noNested pk scope e tr h]
  | .elemC el, tr, h => by
      simp only [noNestedChild] at h
      simp [passChild, noNestedChild, passElem_noNested pk scope el tr h]

theorem passChildren_noNested (pk : PassKind) (scope : Option String) :
    (l : JSXChildList) → (tr : Translations) → noNestedChildren l = true →
      noNestedChildren (passChildren pk scope l tr).1 = true
  | .nil, tr, _ => rfl
  | .cons c rest, tr, h => by
      simp only [noNestedChildren, Bool.and_eq_true] at h
      simp [passChildren, noNestedChildren, passChild_noNested pk scope c tr h.1,
        passChildren_noNested pk scope rest (passChild pk scope c tr).2.1 h.2]

theorem passElem_noNested (pk : PassKind) (scope : Option String) :
    (el : JSXElem) → (tr : Translations) → noNestedElem el = true →
      noNestedElem (passElem pk scope el tr).1 = true
  | .mk attrs children, tr, h => by
      simp only [noNestedElem, Bool.and_eq_true] at h
      simp [passElem, noNestedElem, passAttrs_noNested pk scope attrs tr h.1,
        passChildren_noNested pk scope children (passAttrs pk scope attrs tr).2.1 h.2]

theorem passFnBody_noNested (pk : PassKind) (scope : Option String) :
    (b : FnBody) → (tr : Translations) → noNestedFnBody b = true →
      noNestedFnBody (passFnBody pk scope b tr).1 = true
  | .block ss, tr, h => by
      simp only [noNestedFnBody] at h
      simp [passFnBody, noNestedFnBody, passStmts_noNested pk scope ss tr h]
  | .exprB e, tr, h => by
      simp only [noNestedFnBody] at h
      simp [passFnBody, noNestedFnBody, passExpr_noNested pk scope e tr h]

theorem passStmt_noNested (pk : PassKind) (scope : Option String) :
    (s : Stmt) → (tr : Translations) → noNestedStmt s = true →
      noNestedStmt (passStmt pk scope s tr).1 = true
  | .importS sp src, tr, _ => rfl
  | .funcDeclS name b, tr, h => by
      have h' : noNestedFnBody b = true := by simpa [noNestedStmt] using h
      have hb := passFnBody_noNested pk (some (name.getD "UnknownFunction")) b tr h'
      simp only [passStmt, noNestedStmt]
      by_cases hs : (passFnBody pk (some (name.getD "UnknownFunction")) b tr).2.2.1 = true
      · simp [hs, noNestedFnBody_ensureTranslationHook _ hb]
      · simp only [Bool.not_eq_true] at hs
        simpa [hs] using hb
  | .varDeclS pat (.arrowE b), tr, h => by
      have h' : noNestedFnBody b = true := by simpa [noNestedStmt, noNestedExpr] using h
      cases pat with
      | idPat n =>
          have hb := passFnBody_noNested pk (some n) b tr h'
          simp only [passStmt, noNestedStmt, noNestedExpr]
          by_cases hs : (passFnBody pk (some n) b tr).2.2.1 = true
          · simp [hs, noNestedFnBody_ensureTranslationHook _ hb]
          · simp only [Bool.not_eq_true] at hs
            simpa [hs] using hb
      | objPat ns =>
          have hb := passFnBody_noNested pk (some "UnknownFunction") b tr h'
          simp only [passStmt, noNestedStmt, noNestedExpr]
          by_cases hs : (passFnBody pk (some "UnknownFunction") b tr).2.2.1 = true
          · simp [hs, noNestedFnBody_ensureTranslationHook _ hb]
          · simp only [Bool.not_eq_true] at hs
            simpa [hs] using hb
  | .varDeclS pat (.identE n), tr, _ => by
      simp [passStmt, noNestedStmt, passExpr, noNestedExpr]
  | .varDeclS pat (.strLitE s), tr, _ => by
      simp [passStmt, noNestedStmt, passExpr, noNestedExpr]
  | .varDeclS pat (.memberE o p), tr, _ => by
      simp [passStmt, noNestedStmt, passExpr, noNestedExpr]
  | .varDeclS pat (.opaqueE s), tr, _ => by
      simp [passStmt, noNestedStmt, passExpr, noNestedExpr]
  | .varDeclS pat (.callE f args), tr, h => by
      have h' : noNestedExpr (.callE f args) = true := by simpa [noNestedStmt] using h
      have hout := passExpr_noNested pk scope (.callE f args) tr h'
      simp only [passExpr] at hout ⊢
      simpa [passStmt, noNestedStmt] using hout
  | .varDeclS pat (.objE ps), tr, h => by
      have h' : noNestedExpr (.objE ps) = true := by simpa [noNestedStmt] using h
      have hout := passExpr_noNested pk scope (.objE ps) tr h'
      simp only [passExpr] at hout ⊢
      simpa [passStmt, noNestedStmt] using hout
  | .varDeclS pat (.tmplE q es), tr, h => by
      have h' : noNestedExpr (.tmplE q es) = true := by simpa [noNestedStmt] using h
      have hi : noNestedInterps es = true := by simpa [noNestedExpr] using h'
      cases pk with
      | tmplP =>
          cases scope with
          | some fname =>
              simp only [passStmt, passExpr, noNestedStmt]
              exact noNestedExpr_tmplReplacement _ _ _
                (noNestedProps_buildTemplateProps es _ 0
                  (passInterpList_noNested .tmplP (some fname) es _ hi))
          | none =>
              simp [passStmt, passExpr, noNestedStmt, noNestedExpr,
                passExprList_noNestedInterps .tmplP none es tr hi]
      | textP =>
          simp [passStmt, passExpr, noNestedStmt, noNestedExpr,
            passExprList_noNestedInterps .textP scope es tr hi]
      | attrP =>
          simp [passStmt, passExpr, noNestedStmt, noNestedExpr,
            passExprList_noNestedInterps .attrP scope es tr hi]
  | .varDeclS pat (.taggedE tag q es), tr, h => by
      have h' : noNestedExpr (.taggedE tag q es) = true := by simpa [noNestedStmt] using h
      have hout := passExpr_noNested pk scope (.taggedE tag q es) tr h'
      simp only [passExpr] at hout ⊢
      simpa [passStmt, noNestedStmt] using hout
  | .varDeclS pat (.jsxE el), tr, h => by
      have h' : noNestedExpr (.jsxE el) = true := by simpa [noNestedStmt] using h
      have hout := passExpr_noNested pk scope (.jsxE el) tr h'
      simp only [passExpr] at hout ⊢
      simpa [passStmt, noNestedStmt] using hout
  | .returnS e, tr, h => by
      have h' : noNestedExpr e = true := by simpa [noNestedStmt] using h
      simp [passStmt, noNestedStmt, passExpr_noNested pk scope e tr h']
  | .exprStmtS e, tr, h => by
      have h' : noNestedExpr e = true := by simpa [noNestedStmt] using h
      simp [passStmt, noNestedStmt, passExpr_noNested pk scope e tr h']
  | .otherStmtS, tr, _ => rfl

theorem passStmts_noNested (pk : PassKind) (scope : Option String) :
    (l : StmtList) → (tr : Translations) → noNestedStmts l = true →
      noNestedStmts (passStmts pk scope l tr).1 = true
  | .nil, tr, _ => rfl
  | .cons s rest, tr, h => by
      simp only [noNestedStmts, Bool.and_eq_true] at h
      simp [passStmts, noNestedStmts, passStmt_noNested pk scope s tr h.1,
        passStmts_noNested pk scope rest (passStmt pk scope s tr).2.1 h.2]
end

/-! Lifting the families to whole-file pass runs. -/

theorem runPass_id (pk : PassKind) (importPackage : String) (prog : StmtList)
    (tr : Translations) (h : cleanStmts pk false prog = true) :
    runPass pk importPackage prog tr = (prog, tr) := by
  have hp := passStmts_id pk none prog tr h
  simp [runPass, hp]

theorem runPass_cleanSelf (pk : PassKind) (importPackage : String) (prog : StmtList)
    (tr : Translations) (h : noNestedStmts prog = true) :
    cleanStmts pk false (runPass pk importPackage prog tr).1 = true := by
  have h1 := passStmts_cleanSelf pk none prog tr h
  by_cases ha : (passStmts pk none prog tr).2.2.2 = true
  · simp [runPass, ha, cleanStmts_ensureTranslationImport pk false importPackage _ h1]
  · simp only [Bool.not_eq_true] at ha
    simpa [runPass, ha] using h1

theorem runPass_noNested (pk : PassKind) (importPackage : String) (prog : StmtList)
    (tr : Translations) (h : noNestedStmts prog = true) :
    noNestedStmts (runPass pk importPackage prog tr).1 = true := by
  have h2 := passStmts_noNested pk none prog tr h
  by_cases ha : (passStmts pk none prog tr).2.2.2 = true
  · simp [runPass, ha, noNestedStmts_ensureTranslationImport importPackage _ h2]
  · simp only [Bool.not_eq_true] at ha
    simpa [runPass, ha] using h2

theorem runPass_pres (pk pk' : PassKind) (importPackage : String) (prog : StmtList)
    (tr : Translations) (h : cleanStmts pk' false prog = true) :
    cleanStmts pk' false (runPass pk importPackage prog tr).1 = true := by
  have h2 := passStmts_pres pk pk' none prog tr h
  by_cases ha : (passStmts pk none prog tr).2.2.2 = true
  · simp [runPass, ha, cleanStmts_ensureTranslationImport pk' false importPackage _ h2]
  · simp only [Bool.not_eq_true] at ha
    simpa [runPass, ha] using h2

theorem transform_eq (importPackage : String) (prog : StmtList) (tr : Translations) :
    transform importPackage prog tr =
      runPass .tmplP importPackage
        (runPass .attrP importPackage (runPass .textP importPackage prog tr).1
          (runPass .textP importPackage prog tr).2).1
        (runPass .attrP importPackage (runPass .textP importPackage prog tr).1
          (runPass .textP importPackage prog tr).2).2 := rfl

/-- C9 counterexample: the second run is not a no-op in general. On
`const F = () => `A ${`B`} C`;` the first run replaces the outer template
first; the nested template's queued replacement splices into the outer
template's now detached expressions array, so the raw template `B` survives
as the `var1` property value of the replacement call (its catalog entry was
still written). The second run finds that surviving template and rewrites it
into `t('f.b')` — the rewritten source is not a fixed point, contradicting
"running the transform a second time on the rewritten source produces no
change". (The catalog, import and hook are indeed stable; only the tree
changes.) -/
theorem claim9_counterexample :
    (transform "react-i18next"
        (.cons (.varDeclS (.idPat "F")
          (.arrowE (.exprB (.tmplE ["A ", " C"] (.cons (.tmplE ["B"] .nil) .nil))))) .nil)
        []).1 =
      .cons (.varDeclS (.idPat "F") (.arrowE (.block
        (.cons translationHook
          (.cons (.returnS (.callE (.identE "t")
            (.cons (.strLitE "f.a-c")
              (.cons (.objE (.cons (.mk "var1" (.tmplE ["B"] .nil) false) .nil)) .nil))))
            .nil))))) .nil ∧
    (transform "react-i18next"
        (.cons (.varDeclS (.idPat "F")
          (.arrowE (.exprB (.tmplE ["A ", " C"] (.cons (.tmplE ["B"] .nil) .nil))))) .nil)
        []).2 =
      [("f", [("a-c", "A \x7b\x7bvar1\x7d\x7d C"), ("b", "B")])] ∧
    (transform "react-i18next"
        (transform "react-i18next"
          (.cons (.varDeclS (.idPat "F")
            (.arrowE (.exprB (.tmplE ["A ", " C"] (.cons (.tmplE ["B"] .nil) .nil))))) .nil)
          []).1
        (transform "react-i18next"
          (.cons (.varDeclS (.idPat "F")
            (.arrowE (.exprB (.tmplE ["A ", " C"] (.cons (.tmplE ["B"] .nil) .nil))))) .nil)
          []).2).1 ≠
      (transform "react-i18next"
        (.cons (.varDeclS (.idPat "F")
          (.arrowE (.exprB (.tmplE ["A ", " C"] (.cons (.tmplE ["B"] .nil) .nil))))) .nil)
        []).1 := by
  refine ⟨by decide, by decide, by decide⟩

/-- C9 (amended): on an input none of whose template literals has a template
literal standing directly in an interpolation slot, the pipeline is idempotent
on its own output: running the transform a second time on the rewritten tree
with the catalog produced by the first run changes nothing — the tree is
returned as is (in particular no second import and no duplicate hook binding
appear) and the catalog gains no entry. Without that restriction a second run
can change the tree: a template nested directly in a replaced template's
interpolation survives the first run raw (its queued replacement lands in a
detached array) and is rewritten by the second run. -/
theorem claim9_idempotent (importPackage : String) (prog : StmtList) (tr : Translations)
    (h : noNestedStmts prog = true) :
    transform importPackage (transform importPackage prog tr).1
        (transform importPackage prog tr).2 = transform importPackage prog tr := by
  have hnT : noNestedStmts (runPass .textP importPackage prog tr).1 = true :=
    runPass_noNested .textP importPackage prog tr h
  have hnA : noNestedStmts
      (runPass .attrP importPackage (runPass .textP importPackage prog tr).1
        (runPass .textP importPackage prog tr).2).1 = true :=
    runPass_noNested .attrP importPackage _ _ hnT
  have hT : cleanStmts .textP false (transform importPackage prog tr).1 = true := by
    rw [transform_eq]
    exact runPass_pres .tmplP .textP importPackage _ _
      (runPass_pres .attrP .textP importPackage _ _
        (runPass_cleanSelf .textP importPackage prog tr h))
  have hA : cleanStmts .attrP false (transform importPackage prog tr).1 = true := by
    rw [transform_eq]
    exact runPass_pres .tmplP .attrP importPackage _ _
      (runPass_cleanSelf .attrP importPackage _ _ hnT)
  have hM : cleanStmts .tmplP false (transform importPackage prog tr).1 = true := by
    rw [transform_eq]
    exact runPass_cleanSelf .tmplP importPackage _ _ hnA
  conv_lhs => rw [transform_eq]
  simp [runPass_id .textP importPackage (transform importPackage prog tr).1
      (transform importPackage prog tr).2 hT,
    runPass_id .attrP importPackage (transform importPackage prog tr).1
      (transform importPackage prog tr).2 hA,
    runPass_id .tmplP importPackage (transform importPackage prog tr).1
      (transform importPackage prog tr).2 hM]

/-- C9 witness: the amended idempotence at the nesting-free component
`const F = () => `Hello ${name}`;`. -/
theorem claim9_idempotent_witness :
    noNestedStmts
        (.cons (.varDeclS (.idPat "F")
          (.arrowE (.exprB (.tmplE ["Hello ", ""] (.cons (.identE "name") .nil))))) .nil) =
      true ∧
    transform "react-i18next"
        (transform "react-i18next"
          (.cons (.varDeclS (.idPat "F")
            (.arrowE (.exprB (.tmplE ["Hello ", ""] (.cons (.identE "name") .nil))))) .nil)
          []).1
        (transform "react-i18next"
          (.cons (.varDeclS (.idPat "F")
            (.arrowE (.exprB (.tmplE ["Hello ", ""] (.cons (.identE "name") .nil))))) .nil)
          []).2 =
      transform "react-i18next"
        (.cons (.varDeclS (.idPat "F")
          (.arrowE (.exprB (.tmplE ["Hello ", ""] (.cons (.identE "name") .nil))))) .nil)
        [] :=
  ⟨by decide,
   claim9_idempotent "react-i18next"
     (.cons (.varDeclS (.idPat "F")
       (.arrowE (.exprB (.tmplE ["Hello ", ""] (.cons (.identE "name") .nil))))) .nil)
     [] (by decide)⟩

end Codemod
